import Mathlib

/-!
Verification of the STM32 UART bootloader protocol engine of probe-flasher
(`src/backend/src/stm32_uart.rs`).

The engine is embedded shallowly: a port session is a state `S` holding the
scripted input the peer will yield, the trace of observable actions taken on
the port (bytes transmitted, control-line changes, sleeps, buffer clears),
and the log lines handed to the `Logger`.  Every fallible Rust function over
`&mut dyn SerialPort` becomes a function `S → Except Error α × S`; machine
integers are natural numbers with explicit `% 2^32` or `% 256` where the Rust
code wraps.  The per-call read deadline is a fuel bound on the number of
polling iterations of `read_byte_with_timeout`.
-/

set_option maxHeartbeats 1000000
set_option maxRecDepth 16384

deriving instance DecidableEq for Except

namespace ProbeFlasher

/-- Classification carried by `Error.Io`: the write-size guard in
`write_memory` constructs an invalid-input error; every other embedded
io-level failure is collapsed to `otherKind`. -/
inductive IoKind where
  | invalidInput
  | otherKind
deriving DecidableEq

/-- Error taxonomy of `stm32_uart.rs` (`enum Error`).  Payloads of the
library-level variants (`Serial`, `Io`) are reduced to the classification the
engine itself distinguishes. -/
inductive Error where
  | Serial
  | Io (k : IoKind)
  | Hex (msg : String)
  | UnexpectedResponse (b : Nat)
  | Timeout
  | Nack
  | NoEraseSupport
  | PortNotFound (name : String)
  | HexFileNotFound (path : String)
  | HexFileEmpty
deriving DecidableEq

/-- One outcome of a single `port.read` call on a one-byte buffer, as
scripted by the peer: a byte arrives, a zero-length read (`Ok(0)` or a read
that timed out at the os level), or a hard io error. -/
inductive ReadEvt where
  | byte (b : Nat)
  | noData
  | ioErr
deriving DecidableEq

/-- Observable actions of the engine on the serial port.  `tx b` is one byte
written, `setRts`/`setDtr` are `write_request_to_send` /
`write_data_terminal_ready`, `sleep ms` is `thread::sleep`, `clearInput` is
`port.clear(ClearBuffer::Input)`. -/
inductive Evt where
  | tx (b : Nat)
  | sleep (ms : Nat)
  | setRts (v : Bool)
  | setDtr (v : Bool)
  | clearInput
deriving DecidableEq

/-- Port-session state: remaining scripted input, trace of observable
actions, and the accumulated log lines. -/
structure S where
  input : List ReadEvt
  events : List Evt
  logs : List (String × String)
deriving DecidableEq

/-- The session monad: state threading plus short-circuiting errors, with the
port state kept observable on failure (bytes already written stay written). -/
def M (α : Type) : Type := S → Except Error α × S

instance : Monad M where
  pure a := fun s => (Except.ok a, s)
  bind m f := fun s =>
    match m s with
    | (Except.ok a, s') => f a s'
    | (Except.error e, s') => (Except.error e, s')

/-- Raise an error, leaving the state unchanged (Rust `return Err(e)`). -/
def M.throw (e : Error) : M α := fun s => (Except.error e, s)

/-- Handle an error (Rust `match`/`if let Err` on a `Result`). -/
def M.catch (m : M α) (h : Error → M α) : M α := fun s =>
  match m s with
  | (Except.ok a, s') => (Except.ok a, s')
  | (Except.error e, s') => h e s'

@[simp] theorem M.pure_apply (a : α) (s : S) :
    (pure a : M α) s = (Except.ok a, s) := rfl

@[simp] theorem M.bind_apply (m : M α) (f : α → M β) (s : S) :
    (m >>= f) s =
      match m s with
      | (Except.ok a, s') => f a s'
      | (Except.error e, s') => (Except.error e, s') := rfl

@[simp] theorem M.throw_apply (e : Error) (s : S) :
    (M.throw e : M α) s = (Except.error e, s) := rfl

@[simp] theorem M.catch_apply (m : M α) (h : Error → M α) (s : S) :
    M.catch m h s =
      match m s with
      | (Except.ok a, s') => (Except.ok a, s')
      | (Except.error e, s') => h e s' := rfl

/-- `port.write_all(bs)` — one observable `tx` event per byte. -/
def txBytes (bs : List Nat) : M Unit := fun s =>
  (Except.ok (), { s with events := s.events ++ bs.map Evt.tx })

/-- `thread::sleep(Duration::from_millis ms)`. -/
def msleep (ms : Nat) : M Unit := fun s =>
  (Except.ok (), { s with events := s.events ++ [Evt.sleep ms] })

/-- `port.write_request_to_send v`. -/
def setRts (v : Bool) : M Unit := fun s =>
  (Except.ok (), { s with events := s.events ++ [Evt.setRts v] })

/-- `port.write_data_terminal_ready v`. -/
def setDtr (v : Bool) : M Unit := fun s =>
  (Except.ok (), { s with events := s.events ++ [Evt.setDtr v] })

/-- `port.clear(ClearBuffer::Input)`.  The scripted input stream pairs each
read call with the data it returns, so clearing the os buffer is recorded as
an event but does not drop scripted items. -/
def clearInput : M Unit := fun s =>
  (Except.ok (), { s with events := s.events ++ [Evt.clearInput] })

/-- `logger.line(level, msg)`. -/
def logLine (level msg : String) : M Unit := fun s =>
  (Except.ok (), { s with logs := s.logs ++ [(level, msg)] })

@[simp] theorem txBytes_apply (bs : List Nat) (s : S) :
    txBytes bs s = (Except.ok (), { s with events := s.events ++ bs.map Evt.tx }) := rfl

@[simp] theorem msleep_apply (ms : Nat) (s : S) :
    msleep ms s = (Except.ok (), { s with events := s.events ++ [Evt.sleep ms] }) := rfl

@[simp] theorem setRts_apply (v : Bool) (s : S) :
    setRts v s = (Except.ok (), { s with events := s.events ++ [Evt.setRts v] }) := rfl

@[simp] theorem setDtr_apply (v : Bool) (s : S) :
    setDtr v s = (Except.ok (), { s with events := s.events ++ [Evt.setDtr v] }) := rfl

@[simp] theorem clearInput_apply (s : S) :
    clearInput s = (Except.ok (), { s with events := s.events ++ [Evt.clearInput] }) := rfl

@[simp] theorem logLine_apply (level msg : String) (s : S) :
    logLine level msg s = (Except.ok (), { s with logs := s.logs ++ [(level, msg)] }) := rfl

/-- Protocol constant `ACK = 0x79`. -/
def ACK : Nat := 0x79
/-- Protocol constant `NACK = 0x1F`. -/
def NACK : Nat := 0x1F
/-- Command byte `CMD_GET = 0x00`. -/
def CMD_GET : Nat := 0x00
/-- Command byte `CMD_GET_ID = 0x02`. -/
def CMD_GET_ID : Nat := 0x02
/-- Command byte `CMD_GO = 0x21`. -/
def CMD_GO : Nat := 0x21
/-- Command byte `CMD_WRITE_MEMORY = 0x31`. -/
def CMD_WRITE_MEMORY : Nat := 0x31
/-- Command byte `CMD_ERASE = 0x43`. -/
def CMD_ERASE : Nat := 0x43
/-- Command byte `CMD_EXTENDED_ERASE = 0x44`. -/
def CMD_EXTENDED_ERASE : Nat := 0x44

/-- `fn xor_checksum`: fold of xor over the bytes, starting from 0. -/
def xor_checksum (bytes : List Nat) : Nat :=
  bytes.foldl (fun acc b => acc ^^^ b) 0

/-- `u32::to_be_bytes`: the four big-endian bytes of a 32-bit value. -/
def to_be_bytes (a : Nat) : List Nat :=
  [a / 2 ^ 24 % 256, a / 2 ^ 16 % 256, a / 2 ^ 8 % 256, a % 256]

/-- Polling loop of `fn read_byte_with_timeout` over the scripted input.
`fuel` is the number of poll iterations the deadline admits; each `port.read`
consumes one scripted item; an exhausted script keeps polling (`Ok(0)` /
os-level timeouts) until the deadline, hence yields `Timeout`. -/
def read_byte_go : Nat → List ReadEvt → Except Error Nat × List ReadEvt
  | 0, inp => (Except.error Error.Timeout, inp)
  | fuel + 1, [] => read_byte_go fuel []
  | _ + 1, ReadEvt.byte b :: rest => (Except.ok b, rest)
  | fuel + 1, ReadEvt.noData :: rest => read_byte_go fuel rest
  | _ + 1, ReadEvt.ioErr :: rest => (Except.error (Error.Io IoKind.otherKind), rest)

/-- `fn read_byte_with_timeout`: read exactly one byte, treating zero-byte
reads and os-level timeouts as "not yet"; fail with `Timeout` on deadline. -/
def read_byte_with_timeout (fuel : Nat) : M Nat := fun s =>
  ((read_byte_go fuel s.input).1, { s with input := (read_byte_go fuel s.input).2 })

/-- `fn expect_ack`: read one byte; `ACK` succeeds, `NACK` is `Nack`,
anything else is `UnexpectedResponse`. -/
def expect_ack (fuel : Nat) : M Unit := do
  let b ← read_byte_with_timeout fuel
  if b = ACK then pure ()
  else if b = NACK then M.throw Error.Nack
  else M.throw (Error.UnexpectedResponse b)

/-- `fn send_cmd`: write `[cmd, cmd xor 0xFF]`, flush, await the ack. -/
def send_cmd (cmd : Nat) (fuel : Nat) : M Unit := do
  txBytes [cmd, cmd ^^^ 0xFF]
  expect_ack fuel

/-- `fn send_address`: write the four big-endian address bytes followed by
their xor checksum, flush, await the ack. -/
def send_address (address : Nat) (fuel : Nat) : M Unit := do
  let a := to_be_bytes address
  let c := xor_checksum a
  txBytes a
  txBytes [c]
  expect_ack fuel

/-- `fn write_memory`: guard the size to `1..=256`, send the command and
address frames, then the payload frame `len-1, data, xor(len-1, data)` with
`len-1` computed as `(data.len() as u8).wrapping_sub(1)`. -/
def write_memory (address : Nat) (data : List Nat) (fuel : Nat) : M Unit := do
  if data.isEmpty ∨ data.length > 256 then
    M.throw (Error.Io IoKind.invalidInput)
  else
    send_cmd CMD_WRITE_MEMORY fuel
    send_address address fuel
    let len_minus_one := (data.length % 256 + 255) % 256
    let checksum := xor_checksum (len_minus_one :: data)
    txBytes [len_minus_one]
    txBytes data
    txBytes [checksum]
    expect_ack fuel

/-- `fn extended_erase_all`: command `0x44`, then the mass-erase trailer
`FF FF 00`, with the long timeout on the final ack. -/
def extended_erase_all (fuel longFuel : Nat) : M Unit := do
  send_cmd CMD_EXTENDED_ERASE fuel
  txBytes [0xFF, 0xFF, 0x00]
  expect_ack longFuel

/-- `fn erase_all`: command `0x43`, then the legacy mass-erase trailer
`FF 00`, with the long timeout on the final ack. -/
def erase_all (fuel longFuel : Nat) : M Unit := do
  send_cmd CMD_ERASE fuel
  txBytes [0xFF, 0x00]
  expect_ack longFuel

/-- `fn go_command`: command `0x21` and the target address; the bootloader
jumps and never answers, so nothing is awaited afterwards. -/
def go_command (address : Nat) (fuel : Nat) : M Unit := do
  send_cmd CMD_GO fuel
  send_address address fuel
  pure ()

/-- `fn do_hardware_reset`: drop rts (BOOT0 low), then pulse dtr
high, low, high with the hard-coded dwells. -/
def do_hardware_reset : M Unit := do
  setRts false
  msleep 50
  setDtr true
  msleep 100
  setDtr false
  msleep 100
  setDtr true
  msleep 100
  pure ()

/-- Retry loop of `fn connect_bootloader_with_log` (`for attempt in 1..=5`),
with `n` the number of attempts still available (so the loop is entered with
`n = 5` and the guard `attempt < 5` of the source corresponds to `n ≠ 1`).
Each attempt writes the autobaud byte `0x7F`, sleeps (non-macos build:
100 ms), then awaits the ack.  On the last attempt every failure is returned
(the source stores it in `last_err` and falls out of the loop); earlier a
`Timeout` sleeps 50 ms and retries, any other failure clears the input
buffer, sleeps 100 ms and retries. -/
def connect_autobaud_attempts (fuel : Nat) : Nat → M Unit
  | 0 => M.throw Error.Timeout
  | n + 1 => do
    txBytes [0x7F]
    msleep 100
    M.catch (expect_ack fuel) (fun e =>
      if n = 0 then M.throw e
      else
        match e with
        | Error.Timeout => do
          msleep 50
          connect_autobaud_attempts fuel n
        | _ => do
          clearInput
          msleep 100
          connect_autobaud_attempts fuel n)

/-- `fn connect_bootloader_with_log` (non-macos build): clear the input
buffer twice around a 50 ms settle, then run the five-attempt autobaud
loop. -/
def connect_bootloader_with_log (fuel : Nat) : M Unit := do
  clearInput
  msleep 50
  clearInput
  connect_autobaud_attempts fuel 5

/-- Bulk body read of `fn get_info` / `fn get_id`
(`while read_total < buf.len()`): read exactly `n` bytes, tolerating
zero-length and os-timed-out reads, aborting only on hard io errors.  The
source loop has no deadline; an exhausted script stands for a read that never
completes and is reported as `Timeout`. -/
def read_exact_go : List ReadEvt → Nat → Except Error (List Nat) × List ReadEvt
  | inp, 0 => (Except.ok [], inp)
  | [], _ + 1 => (Except.error Error.Timeout, [])
  | ReadEvt.byte b :: rest, n + 1 =>
    match read_exact_go rest n with
    | (Except.ok bs, inp) => (Except.ok (b :: bs), inp)
    | (Except.error e, inp) => (Except.error e, inp)
  | ReadEvt.noData :: rest, n + 1 => read_exact_go rest (n + 1)
  | ReadEvt.ioErr :: rest, _ + 1 => (Except.error (Error.Io IoKind.otherKind), rest)

/-- Monadic wrapper for `read_exact_go`. -/
def read_exact (n : Nat) : M (List Nat) := fun s =>
  ((read_exact_go s.input n).1, { s with input := (read_exact_go s.input n).2 })

/-- `fn get_info`: command `0x00`, count byte `n`, version byte, `n` command
bytes, trailing ack; returns `(version, cmds)`. -/
def get_info (fuel : Nat) : M (Nat × List Nat) := do
  send_cmd CMD_GET fuel
  let n ← read_byte_with_timeout fuel
  let version ← read_byte_with_timeout fuel
  let cmds ← read_exact n
  expect_ack fuel
  pure (version, cmds)

/-- `fn get_id`: command `0x02`, count byte `n`, `n + 1` id bytes, trailing
ack; a two-byte body is the big-endian product id, a one-byte body is
zero-extended, anything else is `UnexpectedResponse 0x00`. -/
def get_id (fuel : Nat) : M Nat := do
  send_cmd CMD_GET_ID fuel
  let n ← read_byte_with_timeout fuel
  let pid_bytes ← read_exact (n + 1)
  expect_ack fuel
  match pid_bytes with
  | [msb, lsb] => pure (msb * 256 + lsb)
  | [single] => pure single
  | _ => M.throw (Error.UnexpectedResponse 0x00)

/-! ### HEX decoder and block builder -/

/-- Intel HEX records the engine distinguishes (`ihex::Record`); every
record type other than data, extended linear address and end-of-file is
collapsed into `other`, which the source ignores. -/
inductive Record where
  | Data (offset : Nat) (value : List Nat)
  | ExtendedLinearAddress (hi : Nat)
  | EndOfFile
  | other
deriving DecidableEq

/-- Value of one ascii hex digit, by code point: digits `48..57`, upper-case
`65..70`, lower-case `97..102`. -/
def hexDigit? (c : Char) : Option Nat :=
  let n := c.toNat
  if 48 ≤ n ∧ n ≤ 57 then some (n - 48)
  else if 65 ≤ n ∧ n ≤ 70 then some (n - 55)
  else if 97 ≤ n ∧ n ≤ 102 then some (n - 87)
  else none

/-- Decode an even-length run of ascii hex digits into bytes. -/
def hexPairs? : List Char → Option (List Nat)
  | [] => some []
  | c1 :: c2 :: rest => do
    let h ← hexDigit? c1
    let l ← hexDigit? c2
    let bs ← hexPairs? rest
    pure ((h * 16 + l) :: bs)
  | [_] => none

/-- Modelled from the spec: the repository parses each line with the external
`ihex` crate's `Record::from_record_string`, whose source is not part of the
repository.  Following the spec ("Intel HEX (ASCII, colon-prefixed records)",
record types data `0x00`, extended linear address `0x04`, end-of-file
`0x01`), a record is a colon, a byte count, a 16-bit big-endian offset, a
type byte, the data bytes and a checksum making the byte sum vanish
mod 256. -/
def from_record_string (line : List Char) : Except String Record :=
  match line with
  | ':' :: rest =>
    match hexPairs? rest with
    | none => Except.error "invalid hex digits"
    | some bytes =>
      match bytes with
      | count :: offHi :: offLo :: rtype :: tail =>
        if tail.length = count + 1 ∧ (bytes.foldl (fun a b => a + b) 0) % 256 = 0 then
          let dataBytes := tail.take count
          let offset := offHi * 256 + offLo
          match rtype with
          | 0 => Except.ok (Record.Data offset dataBytes)
          | 1 => Except.ok Record.EndOfFile
          | 4 =>
            match dataBytes with
            | [hi, lo] => Except.ok (Record.ExtendedLinearAddress (hi * 256 + lo))
            | _ => Except.error "invalid extended linear address record"
          | _ => Except.ok Record.other
        else Except.error "invalid record length or checksum"
      | _ => Except.error "record too short"
  | _ => Except.error "missing start code"

/-- `BTreeMap::insert` on the ascending association list that embeds the
firmware image: keeps keys sorted and unique, replacing an existing value. -/
def imageInsert (k v : Nat) : List (Nat × Nat) → List (Nat × Nat)
  | [] => [(k, v)]
  | (k', v') :: rest =>
    if k < k' then (k, v) :: (k', v') :: rest
    else if k = k' then (k, v) :: rest
    else (k', v') :: imageInsert k v rest

/-- `BTreeMap::get` on the association list. -/
def imageLookup (k : Nat) : List (Nat × Nat) → Option Nat
  | [] => none
  | (k', v) :: rest => if k = k' then some v else imageLookup k rest

/-- Inner loop of the data-record case of `fn parse_hex_to_image`
(`for (i, b) in value.into_iter().enumerate()`): insert byte `b` at
`base + i`, a u32 addition. -/
def insertDataGo (base : Nat) : Nat → List Nat → List (Nat × Nat) → List (Nat × Nat)
  | _, [], image => image
  | i, b :: bs, image =>
    insertDataGo base (i + 1) bs (imageInsert ((base + i) % 2 ^ 32) b image)

/-- Insert a whole data record starting at `base`. -/
def insertRecordData (base : Nat) (value : List Nat) (image : List (Nat × Nat)) :
    List (Nat × Nat) :=
  insertDataGo base 0 value image

/-- Split a character stream at every newline (the terminator-splitting part
of Rust's `str::lines`). -/
def splitLines : List Char → List (List Char)
  | [] => [[]]
  | c :: rest =>
    if c = '\n' then [] :: splitLines rest
    else
      match splitLines rest with
      | [] => [[c]]
      | l :: ls => (c :: l) :: ls

/-- Drop the carriage return `str::lines` strips from a `\r\n` ending. -/
def stripCR (l : List Char) : List Char :=
  match l.getLast? with
  | some '\r' => l.dropLast
  | _ => l

/-- Line loop of `fn parse_hex_to_image`: skip blank lines (`trim` leaves
nothing exactly when every character is whitespace), parse each record,
thread the extended-linear-address upper half, stop at end-of-file, ignore
other record types. -/
def parse_hex_lines : List (List Char) → Nat → List (Nat × Nat) → Except Error (List (Nat × Nat))
  | [], _, image => Except.ok image
  | line :: rest, upper, image =>
    if line.all Char.isWhitespace then parse_hex_lines rest upper image
    else
      match from_record_string line with
      | Except.error e => Except.error (Error.Hex e)
      | Except.ok (Record.Data offset value) =>
        parse_hex_lines rest upper (insertRecordData ((upper <<< 16) ||| offset) value image)
      | Except.ok (Record.ExtendedLinearAddress hi) => parse_hex_lines rest hi image
      | Except.ok Record.EndOfFile => Except.ok image
      | Except.ok Record.other => parse_hex_lines rest upper image

/-- `fn parse_hex_to_image` on the text of the file (the file read itself is
outside the embedding): split the text into lines, process them starting with
`upper = 0` and an empty image, then reject an empty result with
`HexFileEmpty`. -/
def parse_hex_to_image (text : String) : Except Error (List (Nat × Nat)) :=
  match parse_hex_lines ((splitLines text.data).map stripCR) 0 [] with
  | Except.error e => Except.error e
  | Except.ok image => if image.isEmpty then Except.error Error.HexFileEmpty else Except.ok image

/-- Loop body of `fn image_to_blocks` with its accumulators: the pairs still
to visit, the open block (`cur_addr`, `cur`) and the closed blocks.  A pair
extends the open block exactly when its address equals
`a0 + cur.len()` (a u32 addition); otherwise the block is closed and a new
one opened. -/
def image_to_blocks_go :
    List (Nat × Nat) → Option Nat → List Nat → List (Nat × List Nat) → List (Nat × List Nat)
  | [], none, _, blocks => blocks
  | [], some a0, cur, blocks => if cur.isEmpty then blocks else blocks ++ [(a0, cur)]
  | (addr, b) :: rest, none, cur, blocks =>
    image_to_blocks_go rest (some addr) (cur ++ [b]) blocks
  | (addr, b) :: rest, some a0, cur, blocks =>
    if addr = (a0 + cur.length) % 2 ^ 32 then
      image_to_blocks_go rest (some a0) (cur ++ [b]) blocks
    else
      image_to_blocks_go rest (some addr) [b] (blocks ++ [(a0, cur)])

/-- `fn image_to_blocks`: coalesce the ascending image into maximal
contiguous `(base, bytes)` runs. -/
def image_to_blocks (image : List (Nat × Nat)) : List (Nat × List Nat) :=
  image_to_blocks_go image none [] []

/-- Expansion of one block at consecutive addresses. -/
def expandBlock : Nat → List Nat → List (Nat × Nat)
  | _, [] => []
  | a, b :: bs => (a, b) :: expandBlock (a + 1) bs

/-- Expansion of a whole block list back into an address-to-byte list. -/
def reconstruct (blocks : List (Nat × List Nat)) : List (Nat × Nat) :=
  (blocks.map (fun p => expandBlock p.1 p.2)).flatten

/-! ### Flash orchestration (`fn flash_hex`) -/

/-- Display string of an `Error` (`thiserror` messages); the payloads the
embedding dropped are rendered as their classification. -/
def errMsg : Error → String
  | Error.Serial => "serial port error"
  | Error.Io _ => "io error"
  | Error.Hex m => "hex parse error: " ++ m
  | Error.UnexpectedResponse _ => "bootloader: unexpected response byte"
  | Error.Timeout => "bootloader: timeout waiting for response"
  | Error.Nack => "bootloader: device returned NACK"
  | Error.NoEraseSupport => "bootloader: no supported erase command"
  | Error.PortNotFound n => "port '" ++ n ++ "' not found or cannot be opened"
  | Error.HexFileNotFound p => "hex file '" ++ p ++ "' not found"
  | Error.HexFileEmpty => "hex file is empty or contains no valid data"

/-- Progress log line `PROGRESS:写入中:<written>:<total>` of the write loop. -/
def progressMsg (written total : Nat) : String :=
  "PROGRESS:写入中:" ++ toString written ++ ":" ++ toString total

/-- Warning text of the go-command fallback
(`format!("GO 命令失败: {}, 尝试硬件复位", e)`). -/
def goFailMsg (e : Error) : String :=
  "GO 命令失败: " ++ errMsg e ++ ", 尝试硬件复位"

/-- Erase selection of `fn flash_hex`: extended erase if `0x44` is among the
discovered commands, legacy erase if `0x43` is, else `NoEraseSupport`. -/
def erase_dispatch (cmds : List Nat) (fuel longFuel : Nat) : M Unit :=
  if cmds.contains CMD_EXTENDED_ERASE then extended_erase_all fuel longFuel
  else if cmds.contains CMD_ERASE then erase_all fuel longFuel
  else M.throw Error.NoEraseSupport

/-- Inner chunk loop of the write phase of `fn flash_hex`
(`while offset < data.len()`): write the 256-byte (or shorter trailing)
chunk at `base + offset` (a u32 addition), bump the cumulative `written`
count and emit the progress line.  Returns the cumulative count. -/
def write_block_loop (base : Nat) (data : List Nat) (total fuel : Nat)
    (offset written : Nat) : M Nat :=
  if h : offset < data.length then do
    let e := min (offset + 256) data.length
    let chunk := (data.drop offset).take (e - offset)
    write_memory ((base + offset) % 2 ^ 32) chunk fuel
    let written' := written + chunk.length
    logLine "info" (progressMsg written' total)
    write_block_loop base data total fuel e written'
  else
    pure written
termination_by data.length - offset
decreasing_by
  omega

/-- Outer block loop of the write phase of `fn flash_hex`
(`for (base, data) in blocks`). -/
def write_blocks_loop (total fuel : Nat) :
    List (Nat × List Nat) → Nat → M Nat
  | [], written => pure written
  | (base, data) :: rest, written => do
    let w ← write_block_loop base data total fuel 0 written
    write_blocks_loop total fuel rest w

/-- Reset tail of `fn flash_hex` (`if options.reset_after`): attempt
`GO 0x08000000` when `0x21` is supported, falling back to the hardware reset
pulse on any go failure; without go support reset directly. -/
def reset_phase (cmds : List Nat) (reset_after : Bool) (fuel : Nat) : M Unit :=
  if reset_after then do
    if cmds.contains CMD_GO then do
      logLine "info" "正在启动用户程序..."
      M.catch (go_command 0x08000000 fuel) (fun e => do
        logLine "warn" (goFailMsg e)
        do_hardware_reset)
    else do
      logLine "info" "正在复位以运行用户程序..."
      do_hardware_reset
    logLine "info" "程序已启动"
  else pure ()

/-- `fn flash_hex` from the point where the image has been parsed and the
port opened (file access and `open_port`/`apply_boot_mode` drive the os, not
the protocol): connect, discover, erase, stream the chunked writes, then the
optional reset tail and the reserved verify warning. -/
def flash_hex (image : List (Nat × Nat)) (reset_after verify : Bool)
    (fuel longFuel : Nat) : M Unit := do
  let blocks := image_to_blocks image
  logLine "info" ("已加载固件：" ++ toString image.length ++ " 字节")
  logLine "info" "正在连接 Bootloader..."
  connect_bootloader_with_log fuel
  logLine "info" "正在查询支持的命令..."
  let info ← get_info fuel
  logLine "info" "正在擦除..."
  erase_dispatch info.2 fuel longFuel
  logLine "info" "正在写入..."
  let _ ← write_blocks_loop image.length fuel blocks 0
  reset_phase info.2 reset_after fuel
  if verify then logLine "warn" "verify not implemented in MVP yet" else pure ()

/-- Event trace of `n` silent autobaud attempts. -/
def silenceEvts : Nat → List Evt
  | 0 => []
  | 1 => [Evt.tx 0x7F, Evt.sleep 100]
  | n + 2 => [Evt.tx 0x7F, Evt.sleep 100, Evt.sleep 50] ++ silenceEvts (n + 1)

/-- Classification of a `get_id` body (the final `match` of `fn get_id`):
big-endian for two bytes, zero-extension for one, rejection otherwise. -/
def pidOfBytes : List Nat → Except Error Nat
  | [msb, lsb] => Except.ok (msb * 256 + lsb)
  | [single] => Except.ok single
  | _ => Except.error (Error.UnexpectedResponse 0x00)

/-! ### Helper lemmas about the read primitive and the ack handshake -/

theorem read_byte_go_nil : ∀ fuel : Nat, read_byte_go fuel [] = (Except.error Error.Timeout, []) := by
  intro fuel
  induction fuel with
  | zero => rfl
  | succ f ih => simpa [read_byte_go] using ih

theorem read_byte_go_byte {fuel : Nat} (h : 0 < fuel) (b : Nat) (rest : List ReadEvt) :
    read_byte_go fuel (ReadEvt.byte b :: rest) = (Except.ok b, rest) := by
  cases fuel with
  | zero => omega
  | succ f => rfl

theorem read_byte_go_skip :
    ∀ (k fuel : Nat), k < fuel → ∀ (b : Nat) (rest : List ReadEvt),
      read_byte_go fuel (List.replicate k ReadEvt.noData ++ ReadEvt.byte b :: rest) =
        (Except.ok b, rest) := by
  intro k
  induction k with
  | zero =>
    intro fuel h b rest
    simpa using read_byte_go_byte h b rest
  | succ k ih =>
    intro fuel h b rest
    cases fuel with
    | zero => omega
    | succ f =>
      simpa [List.replicate_succ, read_byte_go] using ih f (by omega) b rest

theorem read_byte_go_all_noData :
    ∀ (fuel k : Nat),
      read_byte_go fuel (List.replicate k ReadEvt.noData) =
        (Except.error Error.Timeout, List.replicate (k - fuel) ReadEvt.noData) := by
  intro fuel
  induction fuel with
  | zero => intro k; rfl
  | succ f ih =>
    intro k
    cases k with
    | zero => simpa [read_byte_go] using read_byte_go_nil f
    | succ k => simpa [List.replicate_succ, read_byte_go] using ih k

/-- Running `expect_ack` on a script whose next item is a byte: the byte is
consumed and classified. -/
theorem expect_ack_byte {fuel : Nat} (h : 0 < fuel) (b : Nat) (rest : List ReadEvt)
    (s : S) (hs : s.input = ReadEvt.byte b :: rest) :
    expect_ack fuel s =
      ((if b = ACK then Except.ok ()
        else if b = NACK then Except.error Error.Nack
        else Except.error (Error.UnexpectedResponse b)),
       { s with input := rest }) := by
  simp only [expect_ack, read_byte_with_timeout, M.bind_apply, hs, read_byte_go_byte h]
  split
  · rfl
  · split <;> rfl

theorem expect_ack_ack {fuel : Nat} (h : 0 < fuel) (rest : List ReadEvt)
    (s : S) (hs : s.input = ReadEvt.byte ACK :: rest) :
    expect_ack fuel s = (Except.ok (), { s with input := rest }) := by
  simp [expect_ack_byte h ACK rest s hs]

/-- `expect_ack` only consumes input: it never adds events or log lines. -/
theorem expect_ack_frame (fuel : Nat) (s : S) :
    (expect_ack fuel s).2.events = s.events ∧ (expect_ack fuel s).2.logs = s.logs := by
  rcases hr : (read_byte_go fuel s.input).1 with e | b
  · simp [expect_ack, read_byte_with_timeout, hr]
  · by_cases hb : b = ACK
    · simp [expect_ack, read_byte_with_timeout, hr, hb]
    · by_cases hn : b = NACK
      · simp [expect_ack, read_byte_with_timeout, hr, hb, hn, M.throw, ACK, NACK]
      · simp only [ACK, NACK] at hb hn
        simp [expect_ack, read_byte_with_timeout, hr, hb, hn, M.throw, ACK, NACK]

/-- `send_cmd` is the two-byte command frame followed by the ack wait. -/
theorem send_cmd_run (cmd fuel : Nat) (s : S) :
    send_cmd cmd fuel s =
      expect_ack fuel { s with events := s.events ++ [Evt.tx cmd, Evt.tx (cmd ^^^ 0xFF)] } := by
  simp [send_cmd]

/-- `send_address` is the five-byte address frame followed by the ack wait. -/
theorem send_address_run (a fuel : Nat) (s : S) :
    send_address a fuel s =
      expect_ack fuel
        { s with events := s.events ++ (to_be_bytes a).map Evt.tx ++
            [Evt.tx (xor_checksum (to_be_bytes a))] } := by
  simp [send_address]

/-- Run of `write_memory` for an in-range payload with the command and
address frames acknowledged: everything up to the final ack wait. -/
theorem write_memory_run (addr : Nat) (D : List Nat) {fuel : Nat} (h : 0 < fuel)
    (h1 : D ≠ []) (h2 : D.length ≤ 256) (rest : List ReadEvt) (s : S)
    (hs : s.input = ReadEvt.byte ACK :: ReadEvt.byte ACK :: rest) :
    write_memory addr D fuel s =
      expect_ack fuel
        { s with
          input := rest
          events := s.events ++ [Evt.tx CMD_WRITE_MEMORY, Evt.tx (CMD_WRITE_MEMORY ^^^ 0xFF)]
            ++ (to_be_bytes addr).map Evt.tx ++ [Evt.tx (xor_checksum (to_be_bytes addr))]
            ++ [Evt.tx ((D.length % 256 + 255) % 256)] ++ D.map Evt.tx
            ++ [Evt.tx (xor_checksum (((D.length % 256 + 255) % 256) :: D))] } := by
  have hg : ¬(D.isEmpty ∨ D.length > 256) := by
    simp [List.isEmpty_iff, h1]
    omega
  rw [write_memory, if_neg hg]
  simp only [M.bind_apply, send_cmd_run, send_address_run]
  rw [expect_ack_ack h (ReadEvt.byte ACK :: rest) _ (by simpa using hs)]
  simp only []
  rw [expect_ack_ack h rest _ rfl]
  simp [List.append_assoc]

/-- C1: Frame well-formedness.  `send_cmd c` transmits exactly the two bytes
`c` and `c xor 0xFF` before awaiting the reply; `send_address A` transmits
exactly the four big-endian bytes of `A` followed by their xor; and for every
payload `D` with `1 ≤ |D| ≤ 256` whose command and address frames are
acknowledged, `write_memory`'s payload frame is `|D| - 1`, then the bytes of
`D`, then the xor of `|D| - 1` together with all bytes of `D`. -/
theorem C1_frame_wellformedness :
    (∀ (c fuel : Nat) (s : S),
      (send_cmd c fuel s).2.events = s.events ++ [Evt.tx c, Evt.tx (c ^^^ 0xFF)])
    ∧ (∀ (a fuel : Nat) (s : S),
      (send_address a fuel s).2.events =
        s.events ++
          [Evt.tx (a / 2 ^ 24 % 256), Evt.tx (a / 2 ^ 16 % 256), Evt.tx (a / 2 ^ 8 % 256),
            Evt.tx (a % 256),
            Evt.tx ((a / 2 ^ 24 % 256) ^^^ (a / 2 ^ 16 % 256) ^^^ (a / 2 ^ 8 % 256) ^^^ (a % 256))])
    ∧ (∀ (addr : Nat) (D : List Nat) (fuel : Nat) (s : S) (rest : List ReadEvt),
      0 < fuel → 1 ≤ D.length → D.length ≤ 256 →
      s.input = ReadEvt.byte 0x79 :: ReadEvt.byte 0x79 :: rest →
      (write_memory addr D fuel s).2.events =
        s.events ++ [Evt.tx 0x31, Evt.tx 0xCE]
          ++ (to_be_bytes addr).map Evt.tx ++ [Evt.tx (xor_checksum (to_be_bytes addr))]
          ++ [Evt.tx (D.length - 1)] ++ D.map Evt.tx
          ++ [Evt.tx (xor_checksum ((D.length - 1) :: D))]) := by
  refine ⟨?_, ?_, ?_⟩
  · intro c fuel s
    rw [send_cmd_run]
    simpa using (expect_ack_frame fuel _).1
  · intro a fuel s
    rw [send_address_run]
    have h := (expect_ack_frame fuel
      { s with events := s.events ++ (to_be_bytes a).map Evt.tx ++
          [Evt.tx (xor_checksum (to_be_bytes a))] }).1
    simpa [to_be_bytes, xor_checksum] using h
  · intro addr D fuel s rest hf hD1 hD2 hs
    have hlen : (D.length % 256 + 255) % 256 = D.length - 1 := by omega
    rw [write_memory_run addr D hf (by intro hc; simp [hc] at hD1) hD2 rest s hs]
    have h := (expect_ack_frame fuel
      { s with
        input := rest
        events := s.events ++ [Evt.tx CMD_WRITE_MEMORY, Evt.tx (CMD_WRITE_MEMORY ^^^ 0xFF)]
          ++ (to_be_bytes addr).map Evt.tx ++ [Evt.tx (xor_checksum (to_be_bytes addr))]
          ++ [Evt.tx ((D.length % 256 + 255) % 256)] ++ D.map Evt.tx
          ++ [Evt.tx (xor_checksum (((D.length % 256 + 255) % 256) :: D))] }).1
    rw [h, hlen]
    simp [CMD_WRITE_MEMORY, List.append_assoc]

/-- Witness for C1 at a concrete two-byte write: address `0x08010000`,
payload `[0xAB, 0xCD]`, both leading acks scripted. -/
theorem C1_frame_wellformedness_witness :
    (write_memory 0x08010000 [0xAB, 0xCD] 1
        ⟨[ReadEvt.byte 0x79, ReadEvt.byte 0x79, ReadEvt.byte 0x79], [], []⟩).2.events =
      [Evt.tx 0x31, Evt.tx 0xCE, Evt.tx 0x08, Evt.tx 0x01, Evt.tx 0x00, Evt.tx 0x00,
        Evt.tx 0x09, Evt.tx 0x01, Evt.tx 0xAB, Evt.tx 0xCD, Evt.tx 0x67] := by
  have h := C1_frame_wellformedness.2.2 0x08010000 [0xAB, 0xCD] 1
      ⟨[ReadEvt.byte 0x79, ReadEvt.byte 0x79, ReadEvt.byte 0x79], [], []⟩
      [ReadEvt.byte 0x79] (by decide) (by decide) (by decide) rfl
  simpa [to_be_bytes, xor_checksum] using h

/-- C6: ACK classification.  With a byte at the head of the script,
`expect_ack` succeeds exactly on `0x79`, fails with `Nack` exactly on
`0x1F` and with `UnexpectedResponse b` on any other byte `b`; the read
primitive skips zero-length reads that fit within the deadline and returns
the first byte, and fails with `Timeout` exactly when no byte arrives before
the deadline, however the budget and the zero-length reads interleave. -/
theorem C6_ack_classification :
    (∀ (fuel b : Nat) (rest : List ReadEvt) (s : S), 0 < fuel →
      s.input = ReadEvt.byte b :: rest →
      expect_ack fuel s =
        ((if b = 0x79 then Except.ok ()
          else if b = 0x1F then Except.error Error.Nack
          else Except.error (Error.UnexpectedResponse b)),
         { s with input := rest }))
    ∧ (∀ (fuel k b : Nat) (rest : List ReadEvt) (s : S), k < fuel →
      s.input = List.replicate k ReadEvt.noData ++ ReadEvt.byte b :: rest →
      read_byte_with_timeout fuel s = (Except.ok b, { s with input := rest }))
    ∧ (∀ (fuel k : Nat) (s : S), s.input = List.replicate k ReadEvt.noData →
      (read_byte_with_timeout fuel s).1 = Except.error Error.Timeout) := by
  refine ⟨?_, ?_, ?_⟩
  · intro fuel b rest s h hs
    simpa [ACK, NACK] using expect_ack_byte h b rest s hs
  · intro fuel k b rest s h hs
    simp [read_byte_with_timeout, hs, read_byte_go_skip k fuel h]
  · intro fuel k s hs
    simp [read_byte_with_timeout, hs, read_byte_go_all_noData]

/-- Witness for C6: a NACK byte after two zero-length reads, classified
within a deadline of three polls; and a poll-out yielding `Timeout`. -/
theorem C6_ack_classification_witness :
    (expect_ack 1 ⟨[ReadEvt.byte 0x1F], [], []⟩ =
      (Except.error Error.Nack, { input := ([] : List ReadEvt), events := [], logs := [] }))
    ∧ (read_byte_with_timeout 3
        ⟨[ReadEvt.noData, ReadEvt.noData, ReadEvt.byte 0x55], [], []⟩ =
      (Except.ok 0x55, { input := ([] : List ReadEvt), events := [], logs := [] }))
    ∧ ((read_byte_with_timeout 2 ⟨[ReadEvt.noData], [], []⟩).1 = Except.error Error.Timeout) := by
  refine ⟨?_, ?_, ?_⟩
  · have h := C6_ack_classification.1 1 0x1F [] ⟨[ReadEvt.byte 0x1F], [], []⟩ (by decide) rfl
    simpa using h
  · have h := C6_ack_classification.2.1 3 2 0x55 []
      ⟨[ReadEvt.noData, ReadEvt.noData, ReadEvt.byte 0x55], [], []⟩ (by decide) (by decide)
    simpa using h
  · exact C6_ack_classification.2.2 2 1 ⟨[ReadEvt.noData], [], []⟩ (by decide)

/-! ### The write-size guard is unreachable from the chunking loop -/

theorem bind_ne_error {α β : Type} (m : M α) (f : α → M β) (s : S) (e : Error)
    (hm : (m s).1 ≠ Except.error e) (hf : ∀ a s', (f a s').1 ≠ Except.error e) :
    ((m >>= f) s).1 ≠ Except.error e := by
  simp only [M.bind_apply]
  rcases hms : m s with ⟨r, s'⟩
  rcases r with er | a
  · rw [hms] at hm
    simpa using hm
  · exact hf a s'

theorem read_byte_go_ne_invalid :
    ∀ (fuel : Nat) (inp : List ReadEvt),
      (read_byte_go fuel inp).1 ≠ Except.error (Error.Io IoKind.invalidInput) := by
  intro fuel
  induction fuel with
  | zero => intro inp; simp [read_byte_go]
  | succ f ih =>
    intro inp
    match inp with
    | [] => simpa [read_byte_go] using ih []
    | ReadEvt.byte b :: rest => simp [read_byte_go]
    | ReadEvt.noData :: rest => simpa [read_byte_go] using ih rest
    | ReadEvt.ioErr :: rest => simp [read_byte_go]

theorem expect_ack_ne_invalid (fuel : Nat) (s : S) :
    (expect_ack fuel s).1 ≠ Except.error (Error.Io IoKind.invalidInput) := by
  rcases hr : (read_byte_go fuel s.input).1 with e | b
  · have h := read_byte_go_ne_invalid fuel s.input
    rw [hr] at h
    simp [expect_ack, read_byte_with_timeout, hr]
    intro hc
    exact h (by rw [hc])
  · by_cases hb : b = ACK
    · simp [expect_ack, read_byte_with_timeout, hr, hb]
    · by_cases hn : b = NACK
      · simp [expect_ack, read_byte_with_timeout, hr, hb, hn, M.throw, ACK, NACK]
      · simp only [ACK, NACK] at hb hn
        simp [expect_ack, read_byte_with_timeout, hr, hb, hn, M.throw, ACK, NACK]

theorem write_memory_ne_invalid (addr : Nat) (D : List Nat) (fuel : Nat) (s : S)
    (h1 : D ≠ []) (h2 : D.length ≤ 256) :
    (write_memory addr D fuel s).1 ≠ Except.error (Error.Io IoKind.invalidInput) := by
  have hg : ¬(D.isEmpty ∨ D.length > 256) := by
    simp [List.isEmpty_iff, h1]
    omega
  rw [write_memory, if_neg hg]
  refine bind_ne_error _ _ _ _ (by rw [send_cmd_run]; exact expect_ack_ne_invalid _ _) ?_
  intro a s'
  refine bind_ne_error _ _ _ _ (by rw [send_address_run]; exact expect_ack_ne_invalid _ _) ?_
  intro a2 s2
  refine bind_ne_error _ _ _ _ (by simp [txBytes]) ?_
  intro a3 s3
  refine bind_ne_error _ _ _ _ (by simp [txBytes]) ?_
  intro a4 s4
  refine bind_ne_error _ _ _ _ (by simp [txBytes]) ?_
  intro a5 s5
  exact expect_ack_ne_invalid _ _

theorem write_block_loop_ne_invalid :
    ∀ (gas base : Nat) (data : List Nat) (total fuel offset written : Nat) (s : S),
      data.length - offset ≤ gas →
      (write_block_loop base data total fuel offset written s).1 ≠
        Except.error (Error.Io IoKind.invalidInput) := by
  intro gas
  induction gas with
  | zero =>
    intro base data total fuel offset written s hg
    rw [write_block_loop, dif_neg (by omega)]
    simp
  | succ g ih =>
    intro base data total fuel offset written s hg
    rw [write_block_loop]
    by_cases h : offset < data.length
    · rw [dif_pos h]
      refine bind_ne_error _ _ _ _ ?_ ?_
      · apply write_memory_ne_invalid
        · intro hc
          have hl := congrArg List.length hc
          simp [List.length_take, List.length_drop] at hl
          omega
        · simp [List.length_take, List.length_drop]
          omega
      · intro a s'
        refine bind_ne_error _ _ _ _ (by simp [logLine]) ?_
        intro a2 s2
        exact ih base data total fuel _ _ s2 (by omega)
    · rw [dif_neg h]
      simp

theorem write_blocks_loop_ne_invalid :
    ∀ (blocks : List (Nat × List Nat)) (total fuel written : Nat) (s : S),
      (write_blocks_loop total fuel blocks written s).1 ≠
        Except.error (Error.Io IoKind.invalidInput) := by
  intro blocks
  induction blocks with
  | nil => intro total fuel written s; simp [write_blocks_loop]
  | cons blk rest ih =>
    intro total fuel written s
    obtain ⟨base, data⟩ := blk
    simp only [write_blocks_loop]
    refine bind_ne_error _ _ _ _
      (write_block_loop_ne_invalid data.length base data total fuel 0 written s (by omega)) ?_
    intro w s'
    exact ih total fuel w s'

/-- C10: Implicit write-size guard.  A payload of length 0 or above 256 makes
`write_memory` fail immediately, before any byte reaches the port (the state
is returned untouched); an in-range payload never produces that error; and no
run of the flash write loop — whose 256-byte chunking of non-empty blocks
always establishes the precondition — can produce it either, so the guard
branch is unreachable from `flash_hex`. -/
theorem C10_write_size_guard :
    (∀ (addr : Nat) (D : List Nat) (fuel : Nat) (s : S),
      D = [] ∨ D.length > 256 →
      write_memory addr D fuel s = (Except.error (Error.Io IoKind.invalidInput), s))
    ∧ (∀ (addr : Nat) (D : List Nat) (fuel : Nat) (s : S),
      1 ≤ D.length → D.length ≤ 256 →
      (write_memory addr D fuel s).1 ≠ Except.error (Error.Io IoKind.invalidInput))
    ∧ (∀ (blocks : List (Nat × List Nat)) (total fuel written : Nat) (s : S),
      (write_blocks_loop total fuel blocks written s).1 ≠
        Except.error (Error.Io IoKind.invalidInput)) := by
  refine ⟨?_, ?_, ?_⟩
  · intro addr D fuel s h
    have hg : D.isEmpty ∨ D.length > 256 := by
      rcases h with h | h
      · exact Or.inl (by simp [h])
      · exact Or.inr h
    rw [write_memory, if_pos hg]
    rfl
  · intro addr D fuel s h1 h2
    exact write_memory_ne_invalid addr D fuel s (by intro hc; simp [hc] at h1) h2
  · exact write_blocks_loop_ne_invalid

/-- Witness for C10: the empty payload is rejected with the state untouched,
and a one-byte payload never hits the guard. -/
theorem C10_write_size_guard_witness :
    (write_memory 0x08000000 [] 1 ⟨[], [], []⟩ =
      (Except.error (Error.Io IoKind.invalidInput), ⟨[], [], []⟩))
    ∧ ((write_memory 0x08000000 [0xAB] 1 ⟨[], [], []⟩).1 ≠
      Except.error (Error.Io IoKind.invalidInput)) := by
  constructor
  · exact C10_write_size_guard.1 0x08000000 [] 1 ⟨[], [], []⟩ (Or.inl rfl)
  · exact C10_write_size_guard.2.1 0x08000000 [0xAB] 1 ⟨[], [], []⟩ (by decide) (by decide)

/-! ### Erase dispatch and the go fallback -/

theorem extended_erase_all_run {fuel : Nat} (longFuel : Nat) (h : 0 < fuel)
    (rest : List ReadEvt) (s : S) (hs : s.input = ReadEvt.byte ACK :: rest) :
    extended_erase_all fuel longFuel s =
      expect_ack longFuel
        { s with
          input := rest,
          events := s.events ++ [Evt.tx 0x44, Evt.tx 0xBB, Evt.tx 0xFF, Evt.tx 0xFF, Evt.tx 0x00] } := by
  simp only [extended_erase_all, M.bind_apply, send_cmd_run]
  rw [expect_ack_ack h rest _ (by simpa using hs)]
  simp [CMD_EXTENDED_ERASE, List.append_assoc]

theorem erase_all_run {fuel : Nat} (longFuel : Nat) (h : 0 < fuel)
    (rest : List ReadEvt) (s : S) (hs : s.input = ReadEvt.byte ACK :: rest) :
    erase_all fuel longFuel s =
      expect_ack longFuel
        { s with
          input := rest,
          events := s.events ++ [Evt.tx 0x43, Evt.tx 0xBC, Evt.tx 0xFF, Evt.tx 0x00] } := by
  simp only [erase_all, M.bind_apply, send_cmd_run]
  rw [expect_ack_ack h rest _ (by simpa using hs)]
  simp [CMD_ERASE, List.append_assoc]

/-- C4: Erase dispatch.  With `0x44` among the discovered commands the engine
transmits the extended-erase frame `[0x44, 0xBB]` followed by the mass-erase
trailer `[0xFF, 0xFF, 0x00]`; with `0x43` but not `0x44` it transmits
`[0x43, 0xBC]` followed by `[0xFF, 0x00]`; with neither it fails with
`NoEraseSupport`, emitting nothing and leaving the state untouched.  Only the
mass-erase trailers exist in the code, so only mass erase is ever issued. -/
theorem C4_erase_dispatch :
    (∀ (cmds : List Nat) (fuel longFuel : Nat) (rest : List ReadEvt) (s : S),
      cmds.contains 0x44 = true → 0 < fuel →
      s.input = ReadEvt.byte 0x79 :: rest →
      (erase_dispatch cmds fuel longFuel s).2.events =
        s.events ++ [Evt.tx 0x44, Evt.tx 0xBB, Evt.tx 0xFF, Evt.tx 0xFF, Evt.tx 0x00])
    ∧ (∀ (cmds : List Nat) (fuel longFuel : Nat) (rest : List ReadEvt) (s : S),
      cmds.contains 0x44 = false → cmds.contains 0x43 = true → 0 < fuel →
      s.input = ReadEvt.byte 0x79 :: rest →
      (erase_dispatch cmds fuel longFuel s).2.events =
        s.events ++ [Evt.tx 0x43, Evt.tx 0xBC, Evt.tx 0xFF, Evt.tx 0x00])
    ∧ (∀ (cmds : List Nat) (fuel longFuel : Nat) (s : S),
      cmds.contains 0x44 = false → cmds.contains 0x43 = false →
      erase_dispatch cmds fuel longFuel s = (Except.error Error.NoEraseSupport, s)) := by
  refine ⟨?_, ?_, ?_⟩
  · intro cmds fuel longFuel rest s h44 hf hs
    simp only [erase_dispatch, CMD_EXTENDED_ERASE, h44, if_true]
    rw [extended_erase_all_run longFuel hf rest s hs]
    simpa using (expect_ack_frame longFuel _).1
  · intro cmds fuel longFuel rest s h44 h43 hf hs
    simp only [erase_dispatch, CMD_EXTENDED_ERASE, CMD_ERASE, h44, h43,
      Bool.false_eq_true, if_false, if_true]
    rw [erase_all_run longFuel hf rest s hs]
    simpa using (expect_ack_frame longFuel _).1
  · intro cmds fuel longFuel s h44 h43
    simp only [erase_dispatch, CMD_EXTENDED_ERASE, CMD_ERASE, h44, h43,
      Bool.false_eq_true, if_false]
    rfl

/-- Witness for C4: extended erase chosen over legacy when both are present,
legacy when only `0x43` is, `NoEraseSupport` when neither. -/
theorem C4_erase_dispatch_witness :
    ((erase_dispatch [0x43, 0x44] 1 1 ⟨[ReadEvt.byte 0x79, ReadEvt.byte 0x79], [], []⟩).2.events =
      [Evt.tx 0x44, Evt.tx 0xBB, Evt.tx 0xFF, Evt.tx 0xFF, Evt.tx 0x00])
    ∧ ((erase_dispatch [0x43] 1 1 ⟨[ReadEvt.byte 0x79, ReadEvt.byte 0x79], [], []⟩).2.events =
      [Evt.tx 0x43, Evt.tx 0xBC, Evt.tx 0xFF, Evt.tx 0x00])
    ∧ (erase_dispatch [0x21, 0x31] 1 1 ⟨[], [], []⟩ =
      (Except.error Error.NoEraseSupport, ⟨[], [], []⟩)) := by
  refine ⟨?_, ?_, ?_⟩
  · have h := C4_erase_dispatch.1 [0x43, 0x44] 1 1 [ReadEvt.byte 0x79]
      ⟨[ReadEvt.byte 0x79, ReadEvt.byte 0x79], [], []⟩ (by decide) (by decide) rfl
    simpa using h
  · have h := C4_erase_dispatch.2.1 [0x43] 1 1 [ReadEvt.byte 0x79]
      ⟨[ReadEvt.byte 0x79, ReadEvt.byte 0x79], [], []⟩ (by decide) (by decide) (by decide) rfl
    simpa using h
  · exact C4_erase_dispatch.2.2 [0x21, 0x31] 1 1 ⟨[], [], []⟩ (by decide) (by decide)

theorem go_command_run_acked {fuel : Nat} (h : 0 < fuel) (a : Nat) (rest : List ReadEvt)
    (s : S) (hs : s.input = ReadEvt.byte ACK :: ReadEvt.byte ACK :: rest) :
    go_command a fuel s =
      (Except.ok (),
       { s with
         input := rest,
         events := s.events ++ [Evt.tx CMD_GO, Evt.tx (CMD_GO ^^^ 0xFF)]
           ++ (to_be_bytes a).map Evt.tx ++ [Evt.tx (xor_checksum (to_be_bytes a))] }) := by
  simp only [go_command, M.bind_apply, send_cmd_run]
  rw [expect_ack_ack h _ _ (by simpa using hs)]
  simp only [send_address_run]
  rw [expect_ack_ack h rest _ rfl]
  simp [List.append_assoc]

theorem go_command_run_nack {fuel : Nat} (h : 0 < fuel) (a : Nat) (rest : List ReadEvt)
    (s : S) (hs : s.input = ReadEvt.byte ACK :: ReadEvt.byte NACK :: rest) :
    go_command a fuel s =
      (Except.error Error.Nack,
       { s with
         input := rest,
         events := s.events ++ [Evt.tx CMD_GO, Evt.tx (CMD_GO ^^^ 0xFF)]
           ++ (to_be_bytes a).map Evt.tx ++ [Evt.tx (xor_checksum (to_be_bytes a))] }) := by
  simp only [go_command, M.bind_apply, send_cmd_run]
  rw [expect_ack_ack h _ _ (by simpa using hs)]
  simp only [send_address_run]
  rw [expect_ack_byte h NACK rest _ rfl]
  simp [ACK, NACK, List.append_assoc]

/-- C7: GO fallback.  The go frame consumes exactly the two acks of its
command and address frames and then returns, waiting for nothing further;
when reset-after is requested, `0x21` is supported and the go command fails
with any error whatsoever, the engine logs the warning naming that error,
performs the hardware-reset pulse — rts dropped, then dtr pulsed high, low,
high with 50–100 ms dwells — and the reset phase still succeeds; in
particular this holds for the scenario where the peer ACKs the go command
byte and NACKs its address frame. -/
theorem C7_go_fallback :
    (∀ (a fuel : Nat) (rest : List ReadEvt) (s : S), 0 < fuel →
      s.input = ReadEvt.byte 0x79 :: ReadEvt.byte 0x79 :: rest →
      go_command a fuel s =
        (Except.ok (),
         { s with
           input := rest,
           events := s.events ++ [Evt.tx 0x21, Evt.tx 0xDE]
             ++ (to_be_bytes a).map Evt.tx ++ [Evt.tx (xor_checksum (to_be_bytes a))] }))
    ∧ (∀ (cmds : List Nat) (fuel : Nat) (e : Error) (s s' : S),
      cmds.contains 0x21 = true →
      go_command 0x08000000 fuel
          { s with logs := s.logs ++ [("info", "正在启动用户程序...")] } =
        (Except.error e, s') →
      reset_phase cmds true fuel s =
        (Except.ok (),
         { s' with
           events := s'.events ++ [Evt.setRts false, Evt.sleep 50, Evt.setDtr true,
             Evt.sleep 100, Evt.setDtr false, Evt.sleep 100, Evt.setDtr true,
             Evt.sleep 100],
           logs := s'.logs ++ [("warn", goFailMsg e), ("info", "程序已启动")] }))
    ∧ (∀ (cmds : List Nat) (fuel : Nat) (rest : List ReadEvt) (s : S),
      cmds.contains 0x21 = true → 0 < fuel →
      s.input = ReadEvt.byte 0x79 :: ReadEvt.byte 0x1F :: rest →
      reset_phase cmds true fuel s =
        (Except.ok (),
         { s with
           input := rest,
           events := s.events ++ [Evt.tx 0x21, Evt.tx 0xDE, Evt.tx 0x08, Evt.tx 0x00,
             Evt.tx 0x00, Evt.tx 0x00, Evt.tx 0x08, Evt.setRts false, Evt.sleep 50,
             Evt.setDtr true, Evt.sleep 100, Evt.setDtr false, Evt.sleep 100,
             Evt.setDtr true, Evt.sleep 100],
           logs := s.logs ++ [("info", "正在启动用户程序..."),
             ("warn", goFailMsg Error.Nack), ("info", "程序已启动")] })) := by
  refine ⟨?_, ?_, ?_⟩
  · intro a fuel rest s hf hs
    have h := go_command_run_acked hf a rest s hs
    simpa [CMD_GO] using h
  · intro cmds fuel e s s' h21 hgo
    simp only [reset_phase, if_true, CMD_GO, h21, M.bind_apply, M.catch_apply, logLine_apply]
    rw [hgo]
    simp [do_hardware_reset, List.append_assoc]
  · intro cmds fuel rest s h21 hf hs
    simp only [reset_phase, if_true, CMD_GO, h21, M.bind_apply, M.catch_apply, logLine_apply]
    rw [go_command_run_nack hf 0x08000000 rest _ (by simpa [ACK, NACK] using hs)]
    simp [do_hardware_reset, to_be_bytes, xor_checksum, CMD_GO, List.append_assoc]

/-- Witness for C7 at concrete scripts: the go frame on an acknowledging
peer, the universal fallback exercised at a non-NACK failure (a silent peer,
so the go command fails with `Timeout`), and the NACKed-address scenario. -/
theorem C7_go_fallback_witness :
    (go_command 0x08000000 1 ⟨[ReadEvt.byte 0x79, ReadEvt.byte 0x79], [], []⟩ =
      (Except.ok (),
       { input := ([] : List ReadEvt),
         events := [Evt.tx 0x21, Evt.tx 0xDE]
           ++ (to_be_bytes 0x08000000).map Evt.tx ++ [Evt.tx (xor_checksum (to_be_bytes 0x08000000))],
         logs := [] }))
    ∧ (reset_phase [0x21] true 1 ⟨[], [], []⟩ =
      (Except.ok (),
       { input := ([] : List ReadEvt),
         events := [Evt.tx 0x21, Evt.tx 0xDE, Evt.setRts false, Evt.sleep 50,
           Evt.setDtr true, Evt.sleep 100, Evt.setDtr false, Evt.sleep 100,
           Evt.setDtr true, Evt.sleep 100],
         logs := [("info", "正在启动用户程序..."),
           ("warn", goFailMsg Error.Timeout), ("info", "程序已启动")] }))
    ∧ (reset_phase [0x21] true 1 ⟨[ReadEvt.byte 0x79, ReadEvt.byte 0x1F], [], []⟩ =
      (Except.ok (),
       { input := ([] : List ReadEvt),
         events := [Evt.tx 0x21, Evt.tx 0xDE, Evt.tx 0x08, Evt.tx 0x00,
           Evt.tx 0x00, Evt.tx 0x00, Evt.tx 0x08, Evt.setRts false, Evt.sleep 50,
           Evt.setDtr true, Evt.sleep 100, Evt.setDtr false, Evt.sleep 100,
           Evt.setDtr true, Evt.sleep 100],
         logs := [("info", "正在启动用户程序..."),
           ("warn", goFailMsg Error.Nack), ("info", "程序已启动")] })) := by
  refine ⟨?_, ?_, ?_⟩
  · have h := C7_go_fallback.1 0x08000000 1 []
      ⟨[ReadEvt.byte 0x79, ReadEvt.byte 0x79], [], []⟩ (by decide) rfl
    simpa using h
  · have h := C7_go_fallback.2.1 [0x21] 1 Error.Timeout ⟨[], [], []⟩
      ⟨[], [Evt.tx 0x21, Evt.tx 0xDE], [("info", "正在启动用户程序...")]⟩
      (by decide) (by decide)
    simpa using h
  · have h := C7_go_fallback.2.2 [0x21] 1 []
      ⟨[ReadEvt.byte 0x79, ReadEvt.byte 0x1F], [], []⟩ (by decide) (by decide) rfl
    simpa using h

/-! ### Autobaud boundedness -/

theorem expect_ack_nil (fuel : Nat) (t : S) (ht : t.input = []) :
    expect_ack fuel t = (Except.error Error.Timeout, t) := by
  have hgo := read_byte_go_nil fuel
  have ht' : { t with input := ([] : List ReadEvt) } = t := by
    cases t with
    | mk i e l => simp only at ht; simp [ht]
  simp [expect_ack, read_byte_with_timeout, ht, hgo, ht']

theorem connect_attempts_succ (fuel n : Nat) :
    connect_autobaud_attempts fuel (n + 1) =
      (do
        txBytes [0x7F]
        msleep 100
        M.catch (expect_ack fuel) (fun e =>
          if n = 0 then M.throw e
          else
            match e with
            | Error.Timeout => do
              msleep 50
              connect_autobaud_attempts fuel n
            | _ => do
              clearInput
              msleep 100
              connect_autobaud_attempts fuel n)) := rfl

theorem connect_attempts_silence :
    ∀ (k fuel : Nat) (t : S), t.input = [] →
      connect_autobaud_attempts fuel (k + 1) t =
        (Except.error Error.Timeout, { t with events := t.events ++ silenceEvts (k + 1) }) := by
  intro k
  induction k with
  | zero =>
    intro fuel t ht
    rw [connect_attempts_succ]
    simp only [M.bind_apply, M.catch_apply, txBytes_apply, msleep_apply,
      List.map_cons, List.map_nil]
    rw [expect_ack_nil fuel _ (by simp [ht])]
    simp [silenceEvts, M.throw]
  | succ k ih =>
    intro fuel t ht
    rw [connect_attempts_succ]
    simp only [M.bind_apply, M.catch_apply, txBytes_apply, msleep_apply,
      List.map_cons, List.map_nil]
    rw [expect_ack_nil fuel _ (by simp [ht])]
    have hne : ¬(k + 1 = 0) := by omega
    simp only [hne, if_false, M.bind_apply, msleep_apply]
    rw [ih fuel _ (by simp [ht])]
    simp [silenceEvts, List.append_assoc]

theorem connect_attempts_first_ack (n fuel : Nat) (h : 0 < fuel) (rest : List ReadEvt)
    (t : S) (ht : t.input = ReadEvt.byte ACK :: rest) :
    connect_autobaud_attempts fuel (n + 1) t =
      (Except.ok (),
       { t with
         input := rest,
         events := t.events ++ [Evt.tx 0x7F, Evt.sleep 100] }) := by
  rw [connect_attempts_succ]
  simp only [M.bind_apply, M.catch_apply, txBytes_apply, msleep_apply,
    List.map_cons, List.map_nil]
  rw [expect_ack_ack h rest _ (by simp [ht])]
  simp [List.append_assoc]

theorem connect_attempts_tx_bound :
    ∀ (n fuel : Nat) (s : S),
      ((connect_autobaud_attempts fuel n s).2.events).count (Evt.tx 0x7F) ≤
        s.events.count (Evt.tx 0x7F) + n := by
  intro n
  induction n with
  | zero =>
    intro fuel s
    simp [connect_autobaud_attempts, M.throw]
  | succ n ih =>
    intro fuel s
    rw [connect_attempts_succ]
    simp only [M.bind_apply, M.catch_apply, txBytes_apply, msleep_apply,
      List.map_cons, List.map_nil]
    rcases hea : expect_ack fuel
        { s with events := s.events ++ [Evt.tx 0x7F] ++ [Evt.sleep 100] } with ⟨r, s3⟩
    have hs3 : s3.events = s.events ++ [Evt.tx 0x7F] ++ [Evt.sleep 100] := by
      have := (expect_ack_frame fuel
        { s with events := s.events ++ [Evt.tx 0x7F] ++ [Evt.sleep 100] }).1
      rw [hea] at this
      simpa using this
    rcases r with e | a
    · cases n with
      | zero =>
        simp [M.throw, hs3, List.count_append]
      | succ m =>
        have hne : ¬(m + 1 = 0) := by omega
        simp only [hne, if_false]
        have step : ∀ t : S,
            ((connect_autobaud_attempts fuel (m + 1) t).2.events).count (Evt.tx 0x7F) ≤
              t.events.count (Evt.tx 0x7F) + (m + 1) := fun t => ih fuel t
        cases e <;>
          simp only [M.bind_apply, msleep_apply, clearInput_apply] <;>
          refine le_trans (step _) ?_ <;>
          simp [hs3, List.count_append] <;>
          omega
    · simp [hs3, List.count_append]

/-- C8: Autobaud boundedness.  In any session the handshake transmits the
byte `0x7F` at most five times; it succeeds immediately on the first ack,
having transmitted exactly one `0x7F`; and against a silent peer it performs
exactly five transmissions and returns the last attempt's error (`Timeout`)
without a sixth. -/
theorem C8_autobaud_bounded :
    (∀ (fuel : Nat) (s : S),
      ((connect_bootloader_with_log fuel s).2.events).count (Evt.tx 0x7F) ≤
        s.events.count (Evt.tx 0x7F) + 5)
    ∧ (∀ (fuel : Nat) (rest : List ReadEvt) (s : S), 0 < fuel →
      s.input = ReadEvt.byte 0x79 :: rest →
      connect_bootloader_with_log fuel s =
        (Except.ok (),
         { s with
           input := rest,
           events := s.events ++ [Evt.clearInput, Evt.sleep 50, Evt.clearInput,
             Evt.tx 0x7F, Evt.sleep 100] }))
    ∧ (∀ (fuel : Nat) (s : S), s.input = [] →
      connect_bootloader_with_log fuel s =
        (Except.error Error.Timeout,
         { s with events := s.events ++
            [Evt.clearInput, Evt.sleep 50, Evt.clearInput,
             Evt.tx 0x7F, Evt.sleep 100, Evt.sleep 50,
             Evt.tx 0x7F, Evt.sleep 100, Evt.sleep 50,
             Evt.tx 0x7F, Evt.sleep 100, Evt.sleep 50,
             Evt.tx 0x7F, Evt.sleep 100, Evt.sleep 50,
             Evt.tx 0x7F, Evt.sleep 100] })) := by
  refine ⟨?_, ?_, ?_⟩
  · intro fuel s
    simp only [connect_bootloader_with_log, M.bind_apply, clearInput_apply, msleep_apply]
    refine le_trans (connect_attempts_tx_bound 5 fuel _) ?_
    simp [List.count_append]
  · intro fuel rest s hf hs
    simp only [connect_bootloader_with_log, M.bind_apply, clearInput_apply, msleep_apply]
    rw [show (5 : Nat) = 4 + 1 from rfl,
      connect_attempts_first_ack 4 fuel hf rest _ (by simp [hs, ACK])]
    simp [List.append_assoc]
  · intro fuel s hs
    simp only [connect_bootloader_with_log, M.bind_apply, clearInput_apply, msleep_apply]
    rw [show (5 : Nat) = 4 + 1 from rfl,
      connect_attempts_silence 4 fuel _ (by simp [hs])]
    have hsil : silenceEvts (4 + 1) =
        [Evt.tx 0x7F, Evt.sleep 100, Evt.sleep 50,
         Evt.tx 0x7F, Evt.sleep 100, Evt.sleep 50,
         Evt.tx 0x7F, Evt.sleep 100, Evt.sleep 50,
         Evt.tx 0x7F, Evt.sleep 100, Evt.sleep 50,
         Evt.tx 0x7F, Evt.sleep 100] := by
      simp [silenceEvts]
    rw [hsil]
    simp [List.append_assoc]

/-- Witness for C8: the count bound at a fresh state, success after one
`0x7F` on an immediate ack, and the silent-peer run. -/
theorem C8_autobaud_bounded_witness :
    (((connect_bootloader_with_log 1 ⟨[], [], []⟩).2.events).count (Evt.tx 0x7F) ≤ 5)
    ∧ (connect_bootloader_with_log 1 ⟨[ReadEvt.byte 0x79], [], []⟩ =
      (Except.ok (),
       { input := ([] : List ReadEvt),
         events := [Evt.clearInput, Evt.sleep 50, Evt.clearInput,
           Evt.tx 0x7F, Evt.sleep 100],
         logs := [] }))
    ∧ (connect_bootloader_with_log 2 ⟨[], [], []⟩ =
      (Except.error Error.Timeout,
       { input := ([] : List ReadEvt),
         events := [Evt.clearInput, Evt.sleep 50, Evt.clearInput,
           Evt.tx 0x7F, Evt.sleep 100, Evt.sleep 50,
           Evt.tx 0x7F, Evt.sleep 100, Evt.sleep 50,
           Evt.tx 0x7F, Evt.sleep 100, Evt.sleep 50,
           Evt.tx 0x7F, Evt.sleep 100, Evt.sleep 50,
           Evt.tx 0x7F, Evt.sleep 100],
         logs := [] })) := by
  refine ⟨?_, ?_, ?_⟩
  · have h := C8_autobaud_bounded.1 1 ⟨[], [], []⟩
    simpa using h
  · have h := C8_autobaud_bounded.2.1 1 [] ⟨[ReadEvt.byte 0x79], [], []⟩ (by decide) rfl
    simpa using h
  · have h := C8_autobaud_bounded.2.2 2 ⟨[], [], []⟩ rfl
    simpa using h

/-! ### GET ID lenient parse -/

theorem read_exact_go_bytes :
    ∀ (bs : List Nat) (inp : List ReadEvt),
      read_exact_go (bs.map ReadEvt.byte ++ inp) bs.length = (Except.ok bs, inp) := by
  intro bs
  induction bs with
  | nil => intro inp; simp [read_exact_go]
  | cons b rest ih =>
    intro inp
    simp [read_exact_go, ih]

theorem get_id_run {fuel : Nat} (h : 0 < fuel) (n : Nat) (body : List Nat)
    (hb : body.length = n + 1) (rest : List ReadEvt) (s : S)
    (hs : s.input = ReadEvt.byte ACK :: ReadEvt.byte n ::
      (body.map ReadEvt.byte ++ ReadEvt.byte ACK :: rest)) :
    get_id fuel s =
      (pidOfBytes body,
       { s with input := rest, events := s.events ++ [Evt.tx 0x02, Evt.tx 0xFD] }) := by
  simp only [get_id, M.bind_apply, send_cmd_run]
  rw [expect_ack_ack h _ _ (by simpa using hs)]
  simp only [read_byte_with_timeout, read_byte_go_byte h]
  simp only [read_exact]
  rw [← hb, read_exact_go_bytes body (ReadEvt.byte ACK :: rest)]
  dsimp only
  rw [expect_ack_ack h rest _ rfl]
  rcases body with _ | ⟨b1, _ | ⟨b2, _ | ⟨b3, t⟩⟩⟩ <;>
    simp [CMD_GET_ID, M.throw, pidOfBytes, List.append_assoc]

/-- C9: GET ID lenient parse.  `get_id` reads a count byte `N`, then exactly
`N + 1` body bytes and an ack; a two-byte body is the big-endian 16-bit
product id, a one-byte body is the byte zero-extended, and every other body
length fails with `UnexpectedResponse 0x00`. -/
theorem C9_get_id_lenient :
    (∀ (fuel msb lsb : Nat) (rest : List ReadEvt) (s : S), 0 < fuel →
      s.input = ReadEvt.byte 0x79 :: ReadEvt.byte 1 ::
        ReadEvt.byte msb :: ReadEvt.byte lsb :: ReadEvt.byte 0x79 :: rest →
      get_id fuel s =
        (Except.ok (msb * 256 + lsb),
         { s with input := rest, events := s.events ++ [Evt.tx 0x02, Evt.tx 0xFD] }))
    ∧ (∀ (fuel b : Nat) (rest : List ReadEvt) (s : S), 0 < fuel →
      s.input = ReadEvt.byte 0x79 :: ReadEvt.byte 0 ::
        ReadEvt.byte b :: ReadEvt.byte 0x79 :: rest →
      get_id fuel s =
        (Except.ok b,
         { s with input := rest, events := s.events ++ [Evt.tx 0x02, Evt.tx 0xFD] }))
    ∧ (∀ (fuel m : Nat) (body : List Nat) (rest : List ReadEvt) (s : S), 0 < fuel →
      body.length = m + 3 →
      s.input = ReadEvt.byte 0x79 :: ReadEvt.byte (m + 2) ::
        (body.map ReadEvt.byte ++ ReadEvt.byte 0x79 :: rest) →
      (get_id fuel s).1 = Except.error (Error.UnexpectedResponse 0x00)) := by
  refine ⟨?_, ?_, ?_⟩
  · intro fuel msb lsb rest s hf hs
    have h := get_id_run hf 1 [msb, lsb] rfl rest s (by simpa [ACK] using hs)
    simpa [pidOfBytes] using h
  · intro fuel b rest s hf hs
    have h := get_id_run hf 0 [b] rfl rest s (by simpa [ACK] using hs)
    simpa [pidOfBytes] using h
  · intro fuel m body rest s hf hb hs
    have h := get_id_run hf (m + 2) body (by omega) rest s (by simpa [ACK] using hs)
    rw [h]
    rcases body with _ | ⟨b1, _ | ⟨b2, _ | ⟨b3, t⟩⟩⟩
    · simp [pidOfBytes]
    · simp at hb
    · simp at hb
    · simp [pidOfBytes]

/-- Witness for C9: two-byte body `[0x04, 0x12]` gives id `0x0412`, one-byte
body `[0x04]` gives `0x0004`, a three-byte body is rejected. -/
theorem C9_get_id_lenient_witness :
    (get_id 1 ⟨[ReadEvt.byte 0x79, ReadEvt.byte 1, ReadEvt.byte 0x04, ReadEvt.byte 0x12,
        ReadEvt.byte 0x79], [], []⟩ =
      (Except.ok 0x0412,
       { input := ([] : List ReadEvt), events := [Evt.tx 0x02, Evt.tx 0xFD], logs := [] }))
    ∧ (get_id 1 ⟨[ReadEvt.byte 0x79, ReadEvt.byte 0, ReadEvt.byte 0x04,
        ReadEvt.byte 0x79], [], []⟩ =
      (Except.ok 0x0004,
       { input := ([] : List ReadEvt), events := [Evt.tx 0x02, Evt.tx 0xFD], logs := [] }))
    ∧ ((get_id 1 ⟨[ReadEvt.byte 0x79, ReadEvt.byte 2, ReadEvt.byte 1, ReadEvt.byte 2,
        ReadEvt.byte 3, ReadEvt.byte 0x79], [], []⟩).1 =
      Except.error (Error.UnexpectedResponse 0x00)) := by
  refine ⟨?_, ?_, ?_⟩
  · have h := C9_get_id_lenient.1 1 0x04 0x12 []
      ⟨[ReadEvt.byte 0x79, ReadEvt.byte 1, ReadEvt.byte 0x04, ReadEvt.byte 0x12,
        ReadEvt.byte 0x79], [], []⟩ (by decide) rfl
    simpa using h
  · have h := C9_get_id_lenient.2.1 1 0x04 []
      ⟨[ReadEvt.byte 0x79, ReadEvt.byte 0, ReadEvt.byte 0x04,
        ReadEvt.byte 0x79], [], []⟩ (by decide) rfl
    simpa using h
  · exact C9_get_id_lenient.2.2 1 0 [1, 2, 3] []
      ⟨[ReadEvt.byte 0x79, ReadEvt.byte 2, ReadEvt.byte 1, ReadEvt.byte 2,
        ReadEvt.byte 3, ReadEvt.byte 0x79], [], []⟩ (by decide) rfl rfl

/-! ### Block coalescing -/

theorem expandBlock_snoc (c : List Nat) :
    ∀ (a b : Nat), expandBlock a (c ++ [b]) = expandBlock a c ++ [(a + c.length, b)] := by
  induction c with
  | nil => intro a b; simp [expandBlock]
  | cons x xs ih =>
    intro a b
    have hn : a + 1 + xs.length = a + (xs.length + 1) := by omega
    simp [expandBlock, ih (a + 1) b, hn]

theorem expandBlock_length (c : List Nat) :
    ∀ a : Nat, (expandBlock a c).length = c.length := by
  induction c with
  | nil => intro a; simp [expandBlock]
  | cons x xs ih => intro a; simp [expandBlock, ih (a + 1)]

theorem image_to_blocks_go_acc :
    ∀ (l : List (Nat × Nat)) (cs : Option Nat) (cur : List Nat) (blocks : List (Nat × List Nat)),
      image_to_blocks_go l cs cur blocks = blocks ++ image_to_blocks_go l cs cur [] := by
  intro l
  induction l with
  | nil =>
    intro cs cur blocks
    cases cs with
    | none => simp [image_to_blocks_go]
    | some a0 => by_cases hc : cur.isEmpty <;> simp [image_to_blocks_go, hc]
  | cons p rest ih =>
    intro cs cur blocks
    obtain ⟨addr, b⟩ := p
    cases cs with
    | none =>
      simp only [image_to_blocks_go]
      rw [ih (some addr) (cur ++ [b]) blocks]
    | some a0 =>
      by_cases hc : addr = (a0 + cur.length) % 2 ^ 32
      · simp only [image_to_blocks_go, if_pos hc]
        rw [ih (some a0) (cur ++ [b]) blocks]
      · simp only [image_to_blocks_go, if_neg hc, List.nil_append]
        rw [ih (some addr) [b] (blocks ++ [(a0, cur)]), ih (some addr) [b] [(a0, cur)]]
        simp [List.append_assoc]

theorem image_to_blocks_go_spec :
    ∀ (l : List (Nat × Nat)) (a0 : Nat) (cur : List Nat),
      cur ≠ [] →
      a0 + cur.length ≤ 2 ^ 32 →
      (∀ p ∈ l, a0 + cur.length ≤ p.1) →
      l.Pairwise (fun p q => p.1 < q.1) →
      (∀ p ∈ l, p.1 < 2 ^ 32) →
      reconstruct (image_to_blocks_go l (some a0) cur []) = expandBlock a0 cur ++ l
      ∧ (∀ blk ∈ image_to_blocks_go l (some a0) cur [], blk.2 ≠ [])
      ∧ List.Chain' (fun p q => p.1 + p.2.length < q.1) (image_to_blocks_go l (some a0) cur [])
      ∧ (image_to_blocks_go l (some a0) cur []).head?.map Prod.fst = some a0 := by
  intro l
  induction l with
  | nil =>
    intro a0 cur hc _ _ _ _
    have hce : ¬cur.isEmpty := by simpa [List.isEmpty_iff] using hc
    refine ⟨?_, ?_, ?_, ?_⟩ <;> simp [image_to_blocks_go, hce, reconstruct, hc]
  | cons p rest ih =>
    intro a0 cur hc hbound hge hpw hlt
    obtain ⟨addr, b⟩ := p
    obtain ⟨hpwh, hpwt⟩ := List.pairwise_cons.mp hpw
    have haddr_ge : a0 + cur.length ≤ addr := hge (addr, b) (by simp)
    have haddr_lt : addr < 2 ^ 32 := hlt (addr, b) (by simp)
    have hmod : (a0 + cur.length) % 2 ^ 32 = a0 + cur.length := Nat.mod_eq_of_lt (by omega)
    by_cases hcase : addr = (a0 + cur.length) % 2 ^ 32
    · have heq : addr = a0 + cur.length := by rw [hcase, hmod]
      simp only [image_to_blocks_go, if_pos hcase]
      obtain ⟨hrec, hne, hch, hhd⟩ := ih a0 (cur ++ [b]) (by simp)
        (by simp; omega)
        (fun q hq => by have := hpwh q hq; simp; omega)
        hpwt
        (fun q hq => hlt q (by simp [hq]))
      refine ⟨?_, hne, hch, by simpa using hhd⟩
      rw [hrec, expandBlock_snoc, ← heq]
      simp [List.append_assoc]
    · have haddr_gt : a0 + cur.length < addr := by
        rw [hmod] at hcase
        omega
      simp only [image_to_blocks_go, if_neg hcase, List.nil_append]
      rw [image_to_blocks_go_acc rest (some addr) [b] [(a0, cur)]]
      obtain ⟨hrec, hne, hch, hhd⟩ := ih addr [b] (by simp)
        (by simp; omega)
        (fun q hq => by have := hpwh q hq; simp; omega)
        hpwt
        (fun q hq => hlt q (by simp [hq]))
      refine ⟨?_, ?_, ?_, by simp⟩
      · simp only [List.singleton_append, reconstruct, List.map_cons, List.flatten_cons]
        rw [show (List.map (fun p => expandBlock p.1 p.2)
            (image_to_blocks_go rest (some addr) [b] [])).flatten =
            reconstruct (image_to_blocks_go rest (some addr) [b] []) from rfl]
        rw [hrec]
        simp [expandBlock]
      · intro blk hblk
        rcases List.mem_cons.mp (by simpa using hblk) with h | h
        · rw [h]; exact hc
        · exact hne blk h
      · rw [List.singleton_append, List.chain'_cons']
        constructor
        · intro q hq
          cases hG : (image_to_blocks_go rest (some addr) [b] []).head? with
          | none => rw [hG] at hq; simp at hq
          | some q0 =>
            rw [hG] at hq hhd
            simp at hq hhd
            subst hq
            simp only [Prod.fst, Prod.snd]
            omega
        · exact hch

theorem image_to_blocks_spec (l : List (Nat × Nat))
    (hpw : l.Pairwise (fun p q => p.1 < q.1)) (hlt : ∀ p ∈ l, p.1 < 2 ^ 32) :
    reconstruct (image_to_blocks l) = l
    ∧ (∀ blk ∈ image_to_blocks l, blk.2 ≠ [])
    ∧ List.Chain' (fun p q => p.1 + p.2.length < q.1) (image_to_blocks l) := by
  cases l with
  | nil =>
    refine ⟨?_, ?_, ?_⟩ <;> simp [image_to_blocks, image_to_blocks_go, reconstruct]
  | cons p rest =>
    obtain ⟨a, b⟩ := p
    have h1 : image_to_blocks ((a, b) :: rest) = image_to_blocks_go rest (some a) [b] [] := by
      simp [image_to_blocks, image_to_blocks_go]
    obtain ⟨hpwh, hpwt⟩ := List.pairwise_cons.mp hpw
    have halt : a < 2 ^ 32 := hlt (a, b) (by simp)
    obtain ⟨hrec, hne, hch, _⟩ := image_to_blocks_go_spec rest a [b] (by simp)
      (by simp; omega)
      (fun q hq => by have := hpwh q hq; simp; omega)
      hpwt
      (fun q hq => hlt q (by simp [hq]))
    rw [h1]
    refine ⟨?_, hne, hch⟩
    rw [hrec]
    simp [expandBlock]

/-- C2: Block coalescing round-trip.  For an ascending firmware image whose
addresses are 32-bit, expanding each block of `image_to_blocks` at
consecutive addresses reconstructs exactly the image; every block is
non-empty; and each next block's base strictly exceeds the previous block's
last address plus one (`base + length < next base`), so no two blocks are
adjacent. -/
theorem C2_block_coalescing (l : List (Nat × Nat))
    (hpw : l.Pairwise (fun p q => p.1 < q.1)) (hlt : ∀ p ∈ l, p.1 < 2 ^ 32) :
    reconstruct (image_to_blocks l) = l
    ∧ (∀ blk ∈ image_to_blocks l, blk.2 ≠ [])
    ∧ List.Chain' (fun p q => p.1 + p.2.length < q.1) (image_to_blocks l) :=
  image_to_blocks_spec l hpw hlt

/-- Witness for C2: a three-byte image with a gap coalesces into two blocks
that expand back to the image. -/
theorem C2_block_coalescing_witness :
    (([(0x100, 0xAA), (0x101, 0xBB), (0x200, 0xCC)] :
        List (Nat × Nat)).Pairwise (fun p q => p.1 < q.1))
    ∧ (reconstruct (image_to_blocks [(0x100, 0xAA), (0x101, 0xBB), (0x200, 0xCC)]) =
        [(0x100, 0xAA), (0x101, 0xBB), (0x200, 0xCC)]
      ∧ (∀ blk ∈ image_to_blocks [(0x100, 0xAA), (0x101, 0xBB), (0x200, 0xCC)], blk.2 ≠ [])
      ∧ List.Chain' (fun p q => p.1 + p.2.length < q.1)
          (image_to_blocks [(0x100, 0xAA), (0x101, 0xBB), (0x200, 0xCC)])) :=
  ⟨by decide,
   C2_block_coalescing [(0x100, 0xAA), (0x101, 0xBB), (0x200, 0xCC)]
     (by decide) (by decide)⟩

/-! ### HEX decode semantics -/

theorem imageLookup_insert (k v a : Nat) :
    ∀ img : List (Nat × Nat),
      imageLookup a (imageInsert k v img) = if a = k then some v else imageLookup a img := by
  intro img
  induction img with
  | nil => by_cases h : a = k <;> simp [imageInsert, imageLookup, h]
  | cons p rest ih =>
    obtain ⟨k', v'⟩ := p
    by_cases h1 : k < k'
    · by_cases h : a = k <;> simp [imageInsert, imageLookup, h1, h]
    · by_cases h2 : k = k'
      · subst h2
        by_cases h : a = k <;> simp [imageInsert, imageLookup, h1, h]
      · by_cases h : a = k
        · subst h
          simp [imageInsert, imageLookup, h1, h2, ih]
        · by_cases h' : a = k' <;>
            simp [imageInsert, imageLookup, h1, h2, h, h', ih, Ne.symm h2]

theorem insertDataGo_lookup :
    ∀ (value : List Nat) (base i : Nat) (image : List (Nat × Nat)),
      base + i + value.length ≤ 2 ^ 32 →
      (∀ j (hj : j < value.length),
        imageLookup (base + i + j) (insertDataGo base i value image) =
          some (value.get ⟨j, hj⟩))
      ∧ (∀ a : Nat, (∀ j, j < value.length → a ≠ base + i + j) →
        imageLookup a (insertDataGo base i value image) = imageLookup a image) := by
  intro value
  induction value with
  | nil =>
    intro base i image _
    exact ⟨fun j hj => by simp at hj, fun a _ => rfl⟩
  | cons b bs ih =>
    intro base i image hle
    have hlen : bs.length + 1 = (b :: bs).length := by simp
    have hmod : (base + i) % 4294967296 = base + i := Nat.mod_eq_of_lt (by simp at hle; omega)
    have hunf : insertDataGo base i (b :: bs) image =
        insertDataGo base (i + 1) bs (imageInsert (base + i) b image) := by
      simp [insertDataGo, hmod]
    obtain ⟨ih1, ih2⟩ := ih base (i + 1) (imageInsert (base + i) b image)
      (by simp at hle ⊢; omega)
    constructor
    · intro j hj
      cases j with
      | zero =>
        rw [hunf, Nat.add_zero,
          ih2 (base + i) (fun j' hj' => by omega),
          imageLookup_insert]
        simp
      | succ j =>
        have hj' : j < bs.length := by simpa using hj
        have := ih1 j hj'
        rw [hunf, show base + i + (j + 1) = base + (i + 1) + j from by omega, this]
        simp
    · intro a ha
      rw [hunf,
        ih2 a (fun j' hj' => by
          have := ha (j' + 1) (by simpa using hj')
          omega),
        imageLookup_insert,
        if_neg (by have := ha 0 (by simp); omega)]

theorem insertRecordData_lookup (base : Nat) (value : List Nat) (image : List (Nat × Nat))
    (hle : base + value.length ≤ 2 ^ 32) :
    (∀ j (hj : j < value.length),
      imageLookup (base + j) (insertRecordData base value image) = some (value.get ⟨j, hj⟩))
    ∧ (∀ a : Nat, (∀ j, j < value.length → a ≠ base + j) →
      imageLookup a (insertRecordData base value image) = imageLookup a image) := by
  have h := insertDataGo_lookup value base 0 image (by omega)
  simpa [insertRecordData] using h

/-- C3: HEX decode semantics.  The worked input
`":020000040801F1\n:0400000012345678E8\n:00000001FF\n"` yields exactly the
four-byte image at `0x08010000`; a line parsing as a data record stores its
bytes into the image starting at `(upper <<< 16) ||| offset` in file order;
within-range record bytes land at consecutive addresses, overwriting whatever
the image held there and leaving every other address unchanged; and a line
parsing as end-of-file stops processing, returning the image as built. -/
theorem C3_hex_decode :
    (parse_hex_to_image ":020000040801F1\n:0400000012345678E8\n:00000001FF\n" =
      Except.ok [(0x08010000, 0x12), (0x08010001, 0x34), (0x08010002, 0x56), (0x08010003, 0x78)])
    ∧ (∀ (line : List Char) (rest : List (List Char)) (upper offset : Nat) (value : List Nat)
        (image : List (Nat × Nat)),
      line.all Char.isWhitespace = false →
      from_record_string line = Except.ok (Record.Data offset value) →
      parse_hex_lines (line :: rest) upper image =
        parse_hex_lines rest upper (insertRecordData ((upper <<< 16) ||| offset) value image))
    ∧ (∀ (base : Nat) (value : List Nat) (image : List (Nat × Nat)),
      base + value.length ≤ 2 ^ 32 →
      (∀ j (hj : j < value.length),
        imageLookup (base + j) (insertRecordData base value image) = some (value.get ⟨j, hj⟩))
      ∧ (∀ a : Nat, (∀ j, j < value.length → a ≠ base + j) →
        imageLookup a (insertRecordData base value image) = imageLookup a image))
    ∧ (∀ (line : List Char) (rest : List (List Char)) (upper : Nat)
        (image : List (Nat × Nat)),
      line.all Char.isWhitespace = false →
      from_record_string line = Except.ok Record.EndOfFile →
      parse_hex_lines (line :: rest) upper image = Except.ok image) := by
  refine ⟨by decide, ?_, ?_, ?_⟩
  · intro line rest upper offset value image hne hrec
    simp [parse_hex_lines, hne, hrec]
  · intro base value image hle
    exact insertRecordData_lookup base value image hle
  · intro line rest upper image hne hrec
    simp [parse_hex_lines, hne, hrec]

/-- Witness for C3: the data-record step on the second line of the worked
example, the lookup semantics at a two-byte record, and the end-of-file
stop. -/
theorem C3_hex_decode_witness :
    (parse_hex_lines [":0400000012345678E8".data, ":00000001FF".data] 0x0801 [] =
      parse_hex_lines [":00000001FF".data] 0x0801
        (insertRecordData ((0x0801 <<< 16) ||| 0) [0x12, 0x34, 0x56, 0x78] []))
    ∧ (imageLookup (0x08010000 + 1)
        (insertRecordData 0x08010000 [0x12, 0x34] [(0x08010001, 0xFF)]) = some 0x34)
    ∧ (parse_hex_lines [":00000001FF".data, "garbage".data] 7 [(1, 2)] =
      Except.ok [(1, 2)]) := by
  refine ⟨?_, ?_, ?_⟩
  · exact C3_hex_decode.2.1 ":0400000012345678E8".data [":00000001FF".data] 0x0801 0
      [0x12, 0x34, 0x56, 0x78] [] (by decide) (by decide)
  · exact (C3_hex_decode.2.2.1 0x08010000 [0x12, 0x34] [(0x08010001, 0xFF)]
      (by decide)).1 1 (by decide)
  · exact C3_hex_decode.2.2.2 ":00000001FF".data ["garbage".data] 7 [(1, 2)]
      (by decide) (by decide)

/-! ### Chunked write and progress -/

theorem write_memory_acked {fuel : Nat} (h : 0 < fuel) (addr : Nat) (D : List Nat)
    (h1 : D ≠ []) (h2 : D.length ≤ 256) (rest : List ReadEvt) (s : S)
    (hs : s.input = ReadEvt.byte ACK :: ReadEvt.byte ACK :: ReadEvt.byte ACK :: rest) :
    write_memory addr D fuel s =
      (Except.ok (),
       { s with
         input := rest,
         events := s.events ++ [Evt.tx 0x31, Evt.tx 0xCE]
           ++ (to_be_bytes addr).map Evt.tx ++ [Evt.tx (xor_checksum (to_be_bytes addr))]
           ++ [Evt.tx ((D.length % 256 + 255) % 256)] ++ D.map Evt.tx
           ++ [Evt.tx (xor_checksum (((D.length % 256 + 255) % 256) :: D))] }) := by
  rw [write_memory_run addr D h h1 h2 (ReadEvt.byte ACK :: rest) s (by simpa using hs)]
  rw [expect_ack_ack h rest _ rfl]
  simp [CMD_WRITE_MEMORY, List.append_assoc]

theorem write_block_loop_ok_written :
    ∀ (gas base : Nat) (data : List Nat) (total fuel offset written : Nat) (s : S) (w : Nat),
      data.length - offset ≤ gas →
      (write_block_loop base data total fuel offset written s).1 = Except.ok w →
      w = written + (data.length - offset) := by
  intro gas
  induction gas with
  | zero =>
    intro base data total fuel offset written s w hg hok
    rw [write_block_loop, dif_neg (by omega)] at hok
    simp at hok
    omega
  | succ g ih =>
    intro base data total fuel offset written s w hg hok
    rw [write_block_loop] at hok
    by_cases h : offset < data.length
    · rw [dif_pos h] at hok
      simp only [M.bind_apply] at hok
      rcases hwm : write_memory ((base + offset) % 2 ^ 32)
          ((data.drop offset).take (min (offset + 256) data.length - offset)) fuel s
        with ⟨r, s'⟩
      rw [hwm] at hok
      rcases r with e | a
      · simp at hok
      · simp only [logLine_apply] at hok
        have hchunk : ((data.drop offset).take (min (offset + 256) data.length - offset)).length =
            min (offset + 256) data.length - offset := by
          simp [List.length_take, List.length_drop]
          omega
        rw [hchunk] at hok
        have := ih base data total fuel (min (offset + 256) data.length)
          (written + (min (offset + 256) data.length - offset)) _ w (by omega) hok
        omega
    · rw [dif_neg h] at hok
      simp at hok
      omega

theorem write_blocks_loop_ok_written :
    ∀ (blocks : List (Nat × List Nat)) (total fuel written : Nat) (s : S) (w : Nat),
      (write_blocks_loop total fuel blocks written s).1 = Except.ok w →
      w = written + (blocks.map (fun p => p.2.length)).sum := by
  intro blocks
  induction blocks with
  | nil =>
    intro total fuel written s w hok
    simp [write_blocks_loop] at hok
    simp [hok]
  | cons blk rest ih =>
    intro total fuel written s w hok
    obtain ⟨base, data⟩ := blk
    simp only [write_blocks_loop, M.bind_apply] at hok
    rcases hwb : write_block_loop base data total fuel 0 written s with ⟨r, s'⟩
    rw [hwb] at hok
    rcases r with e | w1
    · simp at hok
    · have h1 : w1 = written + data.length := by
        have := write_block_loop_ok_written data.length base data total fuel 0 written s w1
          (by omega) (by rw [hwb])
        simpa using this
      have h2 := ih total fuel w1 s' w hok
      simp [h1, h2]
      omega

theorem image_to_blocks_total (l : List (Nat × Nat))
    (hpw : l.Pairwise (fun p q => p.1 < q.1)) (hlt : ∀ p ∈ l, p.1 < 2 ^ 32) :
    ((image_to_blocks l).map (fun p => p.2.length)).sum = l.length := by
  have h := (image_to_blocks_spec l hpw hlt).1
  have hlen := congrArg List.length h
  rw [reconstruct, List.length_flatten, List.map_map] at hlen
  rw [← hlen]
  congr 1
  apply List.map_congr_left
  intro p _
  exact (expandBlock_length p.2 p.1).symm

theorem xor_foldl_acc :
    ∀ (l : List Nat) (acc : Nat),
      l.foldl (fun a b => a ^^^ b) acc = acc ^^^ l.foldl (fun a b => a ^^^ b) 0 := by
  intro l
  induction l with
  | nil => intro acc; simp
  | cons x xs ih =>
    intro acc
    simp only [List.foldl_cons]
    rw [ih (acc ^^^ x), ih (0 ^^^ x)]
    simp [Nat.xor_assoc]

theorem xor_checksum_cons (x : Nat) (l : List Nat) :
    xor_checksum (x :: l) = x ^^^ xor_checksum l := by
  simp only [xor_checksum, List.foldl_cons]
  rw [xor_foldl_acc l (0 ^^^ x)]
  simp

theorem xor_checksum_replicate_even :
    ∀ (k b : Nat), xor_checksum (List.replicate (2 * k) b) = 0 := by
  intro k
  induction k with
  | zero => intro b; simp [xor_checksum]
  | succ k ih =>
    intro b
    have h2 : 2 * (k + 1) = 2 * k + 1 + 1 := by omega
    rw [h2, List.replicate_succ, List.replicate_succ, xor_checksum_cons, xor_checksum_cons,
      ih b]
    simp

theorem write_example_300 :
    write_blocks_loop 300 1 [(0x08000000, List.replicate 300 0xAB)] 0
        ⟨List.replicate 6 (ReadEvt.byte 0x79), [], []⟩ =
      (Except.ok 300,
       { input := ([] : List ReadEvt),
         events := [Evt.tx 0x31, Evt.tx 0xCE, Evt.tx 0x08, Evt.tx 0x00, Evt.tx 0x00,
             Evt.tx 0x00, Evt.tx 0x08, Evt.tx 0xFF] ++ List.replicate 256 (Evt.tx 0xAB) ++
           [Evt.tx 0xFF, Evt.tx 0x31, Evt.tx 0xCE, Evt.tx 0x08, Evt.tx 0x00, Evt.tx 0x01,
             Evt.tx 0x00, Evt.tx 0x09, Evt.tx 0x2B] ++ List.replicate 44 (Evt.tx 0xAB) ++
           [Evt.tx 0x2B],
         logs := [("info", progressMsg 256 300), ("info", progressMsg 300 300)] }) := by
  have hrep1 : List.foldl (fun a b => a ^^^ b) 0 (List.replicate 256 (0xAB : Nat)) = 0 := by
    have h := xor_checksum_replicate_even 128 0xAB
    rw [xor_checksum] at h
    exact h
  have hrep2 : List.foldl (fun a b => a ^^^ b) 0 (List.replicate 44 (0xAB : Nat)) = 0 := by
    have h := xor_checksum_replicate_even 22 0xAB
    rw [xor_checksum] at h
    exact h
  have hck1 : List.foldl (fun a b => a ^^^ b) 255 (List.replicate 256 (0xAB : Nat)) = 255 := by
    rw [xor_foldl_acc, hrep1]
    decide
  have hck2 : List.foldl (fun a b => a ^^^ b) 43 (List.replicate 44 (0xAB : Nat)) = 43 := by
    rw [xor_foldl_acc, hrep2]
    decide
  simp only [write_blocks_loop, M.bind_apply]
  rw [write_block_loop, dif_pos (by simp : (0 : Nat) < (List.replicate 300 (0xAB : Nat)).length)]
  simp only [List.drop_zero, List.length_replicate, List.take_replicate, Nat.sub_zero,
    Nat.add_zero, Nat.zero_add, M.bind_apply]
  norm_num
  rw [write_memory_acked (by norm_num) 0x08000000 (List.replicate 256 0xAB) (by simp)
    (by simp) (List.replicate 3 (ReadEvt.byte 0x79)) _ (by simp [ACK])]
  simp only [logLine_apply, List.length_replicate, M.bind_apply]
  rw [write_block_loop, dif_pos (by simp : (256 : Nat) < (List.replicate 300 (0xAB : Nat)).length)]
  simp only [List.length_replicate, List.drop_replicate, List.take_replicate, M.bind_apply]
  norm_num
  rw [write_memory_acked (by norm_num) (0x08000000 + 256) (List.replicate 44 0xAB) (by simp)
    (by simp) [] _ (by simp [ACK])]
  simp only [logLine_apply, List.length_replicate, M.bind_apply]
  rw [write_block_loop, dif_neg (by simp : ¬((300 : Nat) < (List.replicate 300 (0xAB : Nat)).length))]
  simp only [write_blocks_loop, M.pure_apply]
  norm_num [hck1, hck2, to_be_bytes, xor_checksum, List.append_assoc, List.map_replicate]
  decide

/-- C5: Chunked write and progress.  The 300-byte image at `0x08000000`
produces exactly two write-memory frames — 256 bytes with length-minus-one
`0xFF` at `0x08000000`, then 44 bytes with length-minus-one `0x2B` at
`0x08000100` — each followed by its cumulative
`PROGRESS:写入中:<written>:<total>` info line; and over any image, a
successful run of the write loop returns a final cumulative count equal to
the image byte count used as `total`. -/
theorem C5_chunked_write :
    (write_blocks_loop 300 1 [(0x08000000, List.replicate 300 0xAB)] 0
        ⟨List.replicate 6 (ReadEvt.byte 0x79), [], []⟩ =
      (Except.ok 300,
       { input := ([] : List ReadEvt),
         events := [Evt.tx 0x31, Evt.tx 0xCE, Evt.tx 0x08, Evt.tx 0x00, Evt.tx 0x00,
             Evt.tx 0x00, Evt.tx 0x08, Evt.tx 0xFF] ++ List.replicate 256 (Evt.tx 0xAB) ++
           [Evt.tx 0xFF, Evt.tx 0x31, Evt.tx 0xCE, Evt.tx 0x08, Evt.tx 0x00, Evt.tx 0x01,
             Evt.tx 0x00, Evt.tx 0x09, Evt.tx 0x2B] ++ List.replicate 44 (Evt.tx 0xAB) ++
           [Evt.tx 0x2B],
         logs := [("info", progressMsg 256 300), ("info", progressMsg 300 300)] }))
    ∧ (∀ (image : List (Nat × Nat)) (fuel : Nat) (s : S) (w : Nat),
      image.Pairwise (fun p q => p.1 < q.1) → (∀ p ∈ image, p.1 < 2 ^ 32) →
      (write_blocks_loop image.length fuel (image_to_blocks image) 0 s).1 = Except.ok w →
      w = image.length) := by
  constructor
  · exact write_example_300
  · intro image fuel s w hpw hlt hok
    have h := write_blocks_loop_ok_written (image_to_blocks image) image.length fuel 0 s w hok
    rw [image_to_blocks_total image hpw hlt] at h
    simpa using h

/-- Witness for C5: the second conjunct applied to the one-byte image
`{5 ↦ 9}` against a fully acknowledging script. -/
theorem C5_chunked_write_witness :
    (([(5, 9)] : List (Nat × Nat)).Pairwise (fun p q => p.1 < q.1))
    ∧ (∀ p ∈ ([(5, 9)] : List (Nat × Nat)), p.1 < 2 ^ 32)
    ∧ ((write_blocks_loop ([(5, 9)] : List (Nat × Nat)).length 1 (image_to_blocks [(5, 9)]) 0
        ⟨List.replicate 3 (ReadEvt.byte 0x79), [], []⟩).1 = Except.ok 1)
    ∧ (1 : Nat) = ([(5, 9)] : List (Nat × Nat)).length := by
  have hok : (write_blocks_loop ([(5, 9)] : List (Nat × Nat)).length 1
      (image_to_blocks [(5, 9)]) 0
      ⟨List.replicate 3 (ReadEvt.byte 0x79), [], []⟩).1 = Except.ok 1 := by
    have h1 : image_to_blocks [(5, 9)] = [(5, [9])] := by decide
    rw [h1]
    simp only [write_blocks_loop, M.bind_apply, List.length_cons, List.length_nil]
    rw [write_block_loop, dif_pos (by simp : (0 : Nat) < ([9] : List Nat).length)]
    norm_num
    rw [write_memory_acked (by norm_num) 5 [9] (by simp) (by simp) [] _ (by simp [ACK])]
    simp [write_block_loop, write_blocks_loop]
  exact ⟨by decide, by decide, hok,
    C5_chunked_write.2 [(5, 9)] 1 ⟨List.replicate 3 (ReadEvt.byte 0x79), [], []⟩ 1
      (by decide) (by decide) hok⟩

end ProbeFlasher
